import Mathlib

/-!
Shallow embedding of the rows-n8n-nodes-rows repository pieces the claims
are about:
* the dependency-free multipart/form-data encoder (multipart utility module),
* the validation utilities (nodes/Rows/utils/validation.ts),
* the vision-import aggregation pipeline (nodes/Rows/Rows.node.ts).

Node.js Buffers are modelled as lists of byte values (Nat), JS strings as
Lean Strings, JS objects used as string-keyed maps as association lists in
property-insertion order, and thrown JS errors as Except. The fallible
getBinaryDataBuffer helper of the n8n context is abstracted as an explicit
read function supplied to each pipeline entry point.
-/

/-- Bytes of a Node.js Buffer, as a list of byte values. -/
abbrev Bytes := List Nat

/-- UTF-8 encoding of one Unicode code point, as byte values
    (standard 1-to-4 byte layout). -/
def utf8EncodeCharNat (n : Nat) : List Nat :=
  if n < 0x80 then [n]
  else if n < 0x800 then [0xC0 + n / 64, 0x80 + n % 64]
  else if n < 0x10000 then [0xE0 + n / 4096, 0x80 + (n / 64) % 64, 0x80 + n % 64]
  else [0xF0 + n / 262144, 0x80 + (n / 4096) % 64, 0x80 + (n / 64) % 64, 0x80 + n % 64]

/-- UTF-8 bytes of a string: the model of Buffer.from(s) in the encoder. -/
def utf8Encode (s : String) : Bytes :=
  s.data.flatMap (fun c => utf8EncodeCharNat c.toNat)

/-- JS String.prototype.replace with a global single-character regex:
    every occurrence of the character c is replaced by the string r. -/
def replaceChar (c : Char) (r : String) (s : String) : String :=
  ⟨s.data.flatMap (fun a => if a = c then r.data else [a])⟩

/-- The backslash character, 0x5C. -/
def backslashChar : Char := Char.ofNat 92

/-- The double-quote character, 0x22. -/
def quoteChar : Char := Char.ofNat 34

/-- The tick (apostrophe) character, 0x27. -/
def tickChar : Char := Char.ofNat 39

/-- escapeQuotedString from the multipart module: first every backslash is
    replaced by a double backslash, then every double-quote by
    backslash-quote (two sequential global replaces, in that order). -/
def escapeQuotedString (value : String) : String :=
  replaceChar quoteChar "\\\"" (replaceChar backslashChar "\\\\" value)

/-- A character matched by the regex character class
    x20-x21, x23-x5B, x5D-x7E: printable ASCII minus double-quote (x22)
    and backslash (x5C). -/
def isSafeFilenameChar (c : Char) : Bool :=
  (0x20 ≤ c.toNat && c.toNat ≤ 0x21) ||
  (0x23 ≤ c.toNat && c.toNat ≤ 0x5B) ||
  (0x5D ≤ c.toNat && c.toNat ≤ 0x7E)

/-- The anchored regex test of encodeFilename with its + quantifier:
    the whole string is non-empty and every character is in the class. -/
def safeFilenameTest (s : String) : Bool :=
  !s.data.isEmpty && s.data.all isSafeFilenameChar

/-- Characters that JS encodeURIComponent leaves unescaped:
    A-Z, a-z, 0-9 and minus, underscore, dot, bang, tilde, star, tick,
    and both parentheses. -/
def isUriUnreserved (c : Char) : Bool :=
  (65 ≤ c.toNat && c.toNat ≤ 90) || (97 ≤ c.toNat && c.toNat ≤ 122) ||
  (48 ≤ c.toNat && c.toNat ≤ 57) ||
  c.toNat == 45 || c.toNat == 95 || c.toNat == 46 || c.toNat == 33 ||
  c.toNat == 126 || c.toNat == 42 || c.toNat == 39 || c.toNat == 40 ||
  c.toNat == 41

/-- Uppercase hexadecimal digit character for n < 16. -/
def hexDigit (n : Nat) : Char :=
  if n < 10 then Char.ofNat (48 + n) else Char.ofNat (55 + n)

/-- The percent escape of one byte: a percent sign followed by two
    uppercase hex digits, as encodeURIComponent emits it. -/
def percentByte (b : Nat) : List Char :=
  [Char.ofNat 37, hexDigit (b / 16), hexDigit (b % 16)]

/-- JS encodeURIComponent: unreserved characters are copied through, every
    other character is replaced by the percent escapes of its UTF-8 bytes. -/
def encodeURIComponent (s : String) : String :=
  ⟨s.data.flatMap (fun c =>
    if isUriUnreserved c then [c]
    else (utf8EncodeCharNat c.toNat).flatMap percentByte)⟩

/-- The RFC 2231 prefix emitted by encodeFilename: the text UTF-8 followed
    by two tick characters. -/
def rfc2231Prefix : String := "UTF-8" ++ ⟨[tickChar, tickChar]⟩

/-- encodeFilename from the multipart module: filenames passing the safe
    printable-ASCII test get quoted-string escaping; every other filename
    is emitted in the RFC 2231 form, percent-encoded with the tick
    character additionally replaced by its percent escape. -/
def encodeFilename (filename : String) : String :=
  if safeFilenameTest filename then escapeQuotedString filename
  else rfc2231Prefix ++ replaceChar tickChar "%27" (encodeURIComponent filename)

/-- escapeFieldName from the multipart module: plain quoted-string escaping. -/
def escapeFieldName (name : String) : String :=
  escapeQuotedString name

/-- A form field of the multipart module. -/
structure MultipartField where
  name : String
  value : String
  deriving DecidableEq, Repr

/-- A file of the multipart module; contentType is optional and defaults to
    application/octet-stream at encoding time. -/
structure MultipartFile where
  name : String
  data : Bytes
  filename : String
  contentType : Option String
  deriving DecidableEq, Repr

/-- The literal CRLF line terminator used throughout the encoder. -/
def CRLF : String := "\r\n"

/-- The buffers pushed for one form field by the field loop of
    buildMultipartFormData, in push order. -/
def fieldPartBuffers (boundary : String) (field : MultipartField) : List Bytes :=
  let escapedName := escapeFieldName field.name
  [utf8Encode ("--" ++ boundary ++ CRLF),
   utf8Encode ("Content-Disposition: form-data; name=\"" ++ escapedName ++ "\"" ++ CRLF ++ CRLF),
   utf8Encode field.value,
   utf8Encode CRLF]

/-- The buffers pushed for one file by the file loop of
    buildMultipartFormData, in push order. -/
def filePartBuffers (boundary : String) (file : MultipartFile) : List Bytes :=
  let escapedName := escapeFieldName file.name
  let encodedFilename := encodeFilename file.filename
  let contentType := (file.contentType).getD "application/octet-stream"
  [utf8Encode ("--" ++ boundary ++ CRLF),
   utf8Encode ("Content-Disposition: form-data; name=\"" ++ escapedName ++ "\"; filename=\"" ++ encodedFilename ++ "\"" ++ CRLF),
   utf8Encode ("Content-Type: " ++ contentType ++ CRLF ++ CRLF),
   file.data,
   utf8Encode CRLF]

/-- buildMultipartFormData. The boundary is generated in the source by
    generateBoundary (timestamp plus random component); that nondeterminism
    is modelled by taking the boundary as an explicit argument. The parts
    array accumulates the field buffers, then the file buffers, then the
    closing delimiter; Buffer.concat is list flattening. Returns the body
    and the Content-Type header value. -/
def buildMultipartFormData (boundary : String)
    (fields : List MultipartField) (files : List MultipartFile) :
    Bytes × String :=
  let parts : List Bytes :=
    fields.flatMap (fieldPartBuffers boundary) ++
    files.flatMap (filePartBuffers boundary) ++
    [utf8Encode ("--" ++ boundary ++ "--" ++ CRLF)]
  (parts.flatten, "multipart/form-data; boundary=" ++ boundary)

/-- Value of a hexadecimal digit character (either case), if it is one. -/
def hexVal (c : Char) : Option Nat :=
  if 48 ≤ c.toNat ∧ c.toNat ≤ 57 then some (c.toNat - 48)
  else if 65 ≤ c.toNat ∧ c.toNat ≤ 70 then some (c.toNat - 55)
  else if 97 ≤ c.toNat ∧ c.toNat ≤ 102 then some (c.toNat - 87)
  else none

/-- Percent-decoding of a character sequence to bytes: a percent sign
    followed by two hex digits contributes that byte, any other character
    contributes its UTF-8 bytes. -/
def percentDecodeBytes : List Char → Option (List Nat)
  | [] => some []
  | c :: cs =>
    if c.toNat = 37 then
      match cs with
      | h1 :: h2 :: rest =>
        match hexVal h1, hexVal h2 with
        | some a, some b => (percentDecodeBytes rest).map (fun bs => (16 * a + b) :: bs)
        | _, _ => none
      | _ => none
    else (percentDecodeBytes cs).map (fun bs => utf8EncodeCharNat c.toNat ++ bs)

/-- One step of UTF-8 decoding: the code point opened by the byte b, read
    together with its continuation bytes from bs, and the remaining bytes. -/
def utf8DecodeOne (b : Nat) (bs : List Nat) : Option (Nat × List Nat) :=
  if b < 0x80 then some (b, bs)
  else if b < 0xC0 then none
  else if b < 0xE0 then
    match bs with
    | b1 :: rest =>
      if 0x80 ≤ b1 ∧ b1 < 0xC0 then
        some ((b - 0xC0) * 64 + (b1 - 0x80), rest)
      else none
    | _ => none
  else if b < 0xF0 then
    match bs with
    | b1 :: b2 :: rest =>
      if (0x80 ≤ b1 ∧ b1 < 0xC0) ∧ (0x80 ≤ b2 ∧ b2 < 0xC0) then
        some ((b - 0xE0) * 4096 + (b1 - 0x80) * 64 + (b2 - 0x80), rest)
      else none
    | _ => none
  else if b < 0xF8 then
    match bs with
    | b1 :: b2 :: b3 :: rest =>
      if (0x80 ≤ b1 ∧ b1 < 0xC0) ∧ (0x80 ≤ b2 ∧ b2 < 0xC0) ∧ (0x80 ≤ b3 ∧ b3 < 0xC0) then
        some ((b - 0xF0) * 262144 + (b1 - 0x80) * 4096 + (b2 - 0x80) * 64 + (b3 - 0x80), rest)
      else none
    | _ => none
  else none

/-- UTF-8 decoding of a byte sequence into a code-point sequence, with an
    explicit fuel bound on the number of decoded code points. -/
def utf8DecodeNatsFuel : Nat → List Nat → Option (List Nat)
  | _, [] => some []
  | 0, _ :: _ => none
  | fuel + 1, b :: bs =>
    match utf8DecodeOne b bs with
    | none => none
    | some (n, rest) => (utf8DecodeNatsFuel fuel rest).map (fun ns => n :: ns)

/-- UTF-8 decoding of a byte sequence into a code-point sequence: the list
    length is always enough fuel, since every step consumes a byte. -/
def utf8DecodeNats (l : List Nat) : Option (List Nat) :=
  utf8DecodeNatsFuel l.length l

/-- Percent-decode a string and UTF-8-decode the resulting bytes back to a
    string: the reference decoder for the RFC 2231 form. -/
def percentDecodeString (s : String) : Option String :=
  ((percentDecodeBytes s.data).bind utf8DecodeNats).map (fun ns => ⟨ns.map Char.ofNat⟩)

/-- The dot character, 0x2E. -/
def dotChar : Char := Char.ofNat 46

/-- VISION_ALLOWED_FILE_TYPES of nodes/Rows/utils/validation.ts. -/
def VISION_ALLOWED_FILE_TYPES : List String :=
  ["png", "jpg", "jpeg", "webp", "pdf", "heic", "csv", "tsv", "xls", "xlsx"]

/-- VISION_MAX_FILE_SIZE: 80 times 1024 times 1024 bytes. -/
def VISION_MAX_FILE_SIZE : Nat := 80 * 1024 * 1024

/-- VISION_MAX_TOTAL_SIZE: 80 times 1024 times 1024 bytes. -/
def VISION_MAX_TOTAL_SIZE : Nat := 80 * 1024 * 1024

/-- VISION_MAX_NR_OF_FILES. -/
def VISION_MAX_NR_OF_FILES : Nat := 50

/-- JS String.prototype.split with a single-character separator: the
    groups between occurrences of the separator, in order; the empty
    string splits to one empty group. -/
def splitOnChar (sep : Char) : List Char → List (List Char)
  | [] => [[]]
  | c :: cs =>
    match splitOnChar sep cs with
    | [] => [[]]
    | g :: gs => if c = sep then [] :: g :: gs else (c :: g) :: gs

/-- JS String.prototype.toLowerCase, per character. Lean's Char.toLower
    lowercases exactly the ASCII range; JS toLowerCase agrees with it on
    every character whose lowercase form could equal a member of the
    ASCII-only allowed-extension set, which is all that validateFileType
    compares against. -/
def toLowerString (s : String) : String := ⟨s.data.map Char.toLower⟩

/-- getFileExtension of validation.ts: split the filename on dots; when
    there are at least two groups the extension is the last group
    lowercased, otherwise the empty string. -/
def getFileExtension (filename : String) : String :=
  let parts := splitOnChar dotChar filename.data
  if parts.length > 1 then toLowerString ⟨parts.getLastD []⟩ else ""

/-- validateFileType of validation.ts: the extension must be a member of
    the allowed list. -/
def validateFileType (filename : String) : Bool :=
  VISION_ALLOWED_FILE_TYPES.contains (getFileExtension filename)

/-- The fields of an n8n IBinaryData record that the vision import reads.
    Absent fields are None; note that JS truthiness also treats an empty
    string as absent, which jsOrString reproduces. -/
structure IBinaryData where
  fileName : Option String
  mimeType : Option String
  deriving DecidableEq, Repr

/-- One n8n input item: its binary mapping, when present, as an ordered
    association list (JS object property insertion order, the order
    Object.entries enumerates). -/
structure InputItem where
  binary : Option (List (String × IBinaryData))
  deriving DecidableEq, Repr

/-- A collected file of the pipeline (the BinaryFile record of
    Rows.node.ts). -/
structure BinaryFile where
  data : Bytes
  filename : String
  mimeType : Option String
  deriving DecidableEq, Repr

/-- Errors thrown by the vision import pipeline: one constructor per throw
    site, carrying exactly the data interpolated into that site's message
    text, plus binaryReadFailure for a failure coming out of the n8n
    getBinaryDataBuffer helper (a plain error, not a NodeOperationError). -/
inductive VisionError
  | missingBinaryData (propertyName : String)
  | unsupportedFileTypeSingle (ext : String)
  | fileTooLargeSingle (sizeBytes : Nat)
  | extraFileTooLarge (filename : String)
  | extraUnsupportedFileType (filename : String) (ext : String)
  | totalSizeExceeded (totalBytes : Nat)
  | noInputItems
  | unsupportedFileTypeAll (filename : String) (ext : String)
  | fileTooLargeAll (filename : String) (sizeBytes : Nat)
  | noFilesProvided (propertyName : String)
  | tooManyFiles (count : Nat)
  | missingRequiredParameter
  | binaryReadFailure
  deriving DecidableEq, Repr

/-- The instanceof NodeOperationError test of the catch blocks: every
    pipeline throw site constructs a NodeOperationError; only a plain
    read failure is not one. -/
def isNodeOperationError : VisionError → Bool
  | .binaryReadFailure => false
  | _ => true

/-- JS s or-else d for an optional string: d when s is absent or empty
    (both are falsy). -/
def jsOrString (s : Option String) (d : String) : String :=
  match s with
  | some v => if v = "" then d else v
  | none => d

/-- JS item.binary and item.binary of a property name: the first entry
    with the given key, when the binary mapping exists and has one. -/
def binaryLookup (item : InputItem) (key : String) : Option IBinaryData :=
  match item.binary with
  | none => none
  | some entries => (entries.find? (fun p => p.1 = key)).map (fun p => p.2)

/-- One iteration of the additional-binary-properties loop, whose body is
    shared verbatim by importVisionData and importVisionDataFromAllItems:
    skip the designated property; try to read the extra property, on a
    failure rethrow it only when it is a NodeOperationError and otherwise
    skip the property; add the byte length to the running total; reject a
    file above VISION_MAX_FILE_SIZE, then one with a disallowed type; on
    success append the collected file. The accumulator is the pair of the
    allBinaryFiles array and the running totalSize. -/
def processExtraProperty (read : String → Except VisionError Bytes)
    (binaryPropertyName : String) (acc : List BinaryFile × Nat)
    (entry : String × IBinaryData) : Except VisionError (List BinaryFile × Nat) :=
  let key := entry.1
  let value := entry.2
  if key = binaryPropertyName then .ok acc
  else
    match read key with
    | .error e => if isNodeOperationError e then .error e else .ok acc
    | .ok additionalData =>
      let totalSize := acc.2 + additionalData.length
      if additionalData.length > VISION_MAX_FILE_SIZE then
        .error (.extraFileTooLarge (jsOrString value.fileName key))
      else
        let additionalFileName := jsOrString value.fileName key
        if !validateFileType additionalFileName then
          .error (.extraUnsupportedFileType additionalFileName
            (getFileExtension additionalFileName))
        else
          .ok (acc.1 ++ [{ data := additionalData,
                           filename := additionalFileName,
                           mimeType := value.mimeType }], totalSize)

/-- The tail of the single-item collection once the designated file's
    bytes have been read: its size is checked against
    VISION_MAX_FILE_SIZE, the opportunistic loop runs over the item's
    binary entries starting from the designated file alone, and the
    running total is checked against VISION_MAX_TOTAL_SIZE. -/
def importVisionDataFilesAfterRead (read : String → Except VisionError Bytes)
    (binaryPropertyName : String) (binaryData : IBinaryData)
    (entries : List (String × IBinaryData)) (fileData : Bytes) :
    Except VisionError (List BinaryFile) :=
  if fileData.length > VISION_MAX_FILE_SIZE then
    .error (.fileTooLargeSingle fileData.length)
  else
    match entries.foldlM (processExtraProperty read binaryPropertyName)
        ([{ data := fileData,
            filename := jsOrString binaryData.fileName "file",
            mimeType := binaryData.mimeType }], fileData.length) with
    | .error e => .error e
    | .ok result =>
      if result.2 > VISION_MAX_TOTAL_SIZE then
        .error (.totalSizeExceeded result.2)
      else .ok result.1

/-- The body of importVisionData after the designated binary property has
    been found (single-item mode): the designated filename (defaulting to
    file) must have an allowed type, then its bytes are read and the
    collection continues in importVisionDataFilesAfterRead. -/
def importVisionDataFilesCore (read : String → Except VisionError Bytes)
    (binaryPropertyName : String) (binaryData : IBinaryData)
    (entries : List (String × IBinaryData)) :
    Except VisionError (List BinaryFile) :=
  let fileName := jsOrString binaryData.fileName "file"
  if !validateFileType fileName then
    .error (.unsupportedFileTypeSingle (getFileExtension fileName))
  else
    match read binaryPropertyName with
    | .error e => .error e
    | .ok fileData =>
      importVisionDataFilesAfterRead read binaryPropertyName binaryData
        entries fileData

/-- The file-collection phase of importVisionData (single-item mode): the
    designated binary property must be present, then the item is handed to
    importVisionDataFilesCore with all its binary entries. Returns the
    allBinaryFiles list handed to sendVisionImportRequest. The n8n context
    is abstracted: item is the targeted input item and read the
    getBinaryDataBuffer accessor for its binary properties. -/
def importVisionDataFiles (read : String → Except VisionError Bytes)
    (item : InputItem) (binaryPropertyName : String) :
    Except VisionError (List BinaryFile) :=
  match binaryLookup item binaryPropertyName with
  | none => .error (.missingBinaryData binaryPropertyName)
  | some binaryData =>
    importVisionDataFilesCore read binaryPropertyName binaryData
      (item.binary.getD [])

/-- One part appended to the FormData object of sendVisionImportRequest. -/
inductive FormPart
  | field (name value : String)
  | file (name filename : String) (data : Bytes) (contentType : String)
  deriving DecidableEq, Repr

/-- The scalar node parameters read by sendVisionImportRequest, with the
    node's declared defaults substituted by getNodeParameter when the user
    left a parameter unset: empty strings for folderId, appId, tableId and
    instructions, create for mode, false for merge. -/
structure VisionParams where
  folderId : String
  appId : String
  tableId : String
  mode : String
  merge : Bool
  instructions : String
  deriving DecidableEq, Repr

/-- JS Boolean.prototype.toString. -/
def boolToString (b : Bool) : String := if b then "true" else "false"

/-- sendVisionImportRequest: first the cross-field check (a tableId
    without an appId is a NodeOperationError), then the FormData parts in
    append order: one files part per collected file with its mimeType
    defaulting to application/octet-stream, then folder_id, app_id,
    table_id, mode and instructions each only when the string is truthy
    (non-empty), and merge unconditionally as Boolean.toString. The
    result models the body handed to the HTTP request; an error means no
    body was built. -/
def sendVisionImportRequest (params : VisionParams)
    (allBinaryFiles : List BinaryFile) : Except VisionError (List FormPart) :=
  if params.tableId ≠ "" ∧ params.appId = "" then
    .error .missingRequiredParameter
  else
    let fileParts := allBinaryFiles.map (fun f =>
      FormPart.file "files" f.filename f.data
        (jsOrString f.mimeType "application/octet-stream"))
    let parts := fileParts
      ++ (if params.folderId = "" then [] else [FormPart.field "folder_id" params.folderId])
      ++ (if params.appId = "" then [] else [FormPart.field "app_id" params.appId])
      ++ (if params.tableId = "" then [] else [FormPart.field "table_id" params.tableId])
      ++ (if params.mode = "" then [] else [FormPart.field "mode" params.mode])
      ++ [FormPart.field "merge" (boolToString params.merge)]
      ++ (if params.instructions = "" then [] else [FormPart.field "instructions" params.instructions])
    .ok parts

/-- importVisionData (single-item mode), end to end: collect the files of
    the targeted item, then hand them to sendVisionImportRequest. -/
def importVisionData (read : String → Except VisionError Bytes)
    (item : InputItem) (binaryPropertyName : String) (params : VisionParams) :
    Except VisionError (List FormPart) :=
  (importVisionDataFiles read item binaryPropertyName).bind
    (fun files => sendVisionImportRequest params files)

/-- The tail of the per-item loop body of importVisionDataFromAllItems
    once the designated file's bytes have been read: the size check
    against VISION_MAX_FILE_SIZE, the append of the designated file to the
    accumulator, and the opportunistic loop over the item's binary
    entries. -/
def collectItemStepAfterRead (read : String → Except VisionError Bytes)
    (binaryPropertyName : String) (binaryData : IBinaryData)
    (entries : List (String × IBinaryData))
    (acc : List BinaryFile × Nat) (fileData : Bytes) :
    Except VisionError (List BinaryFile × Nat) :=
  let fileName := jsOrString binaryData.fileName "file"
  if fileData.length > VISION_MAX_FILE_SIZE then
    .error (.fileTooLargeAll fileName fileData.length)
  else
    entries.foldlM (processExtraProperty read binaryPropertyName)
      (acc.1 ++ [{ data := fileData, filename := fileName,
                   mimeType := binaryData.mimeType }],
       acc.2 + fileData.length)

/-- The body of the per-item loop of importVisionDataFromAllItems: an item
    whose designated binary property is absent is skipped (continue);
    otherwise the designated file's type is validated, its bytes are read
    (a read failure here is not caught) and the step continues in
    collectItemStepAfterRead with the same opportunistic loop as in
    single-item mode. The accumulator pairs allBinaryFiles with the
    running totalSize; the item index feeds the per-item
    getBinaryDataBuffer accessor. -/
def collectItemStep (read : Nat → String → Except VisionError Bytes)
    (binaryPropertyName : String) (acc : List BinaryFile × Nat)
    (ip : Nat × InputItem) : Except VisionError (List BinaryFile × Nat) :=
  match binaryLookup ip.2 binaryPropertyName with
  | none => .ok acc
  | some binaryData =>
    let fileName := jsOrString binaryData.fileName "file"
    if !validateFileType fileName then
      .error (.unsupportedFileTypeAll fileName (getFileExtension fileName))
    else
      match read ip.1 binaryPropertyName with
      | .error e => .error e
      | .ok fileData =>
        collectItemStepAfterRead (read ip.1) binaryPropertyName binaryData
          (ip.2.binary.getD []) acc fileData

/-- The file-collection phase of importVisionDataFromAllItems
    (collect-all-items mode): an empty input sequence is rejected first;
    then the per-item loop runs over the items with their indices; then
    an empty collection is rejected naming the designated property, a
    collection of more than VISION_MAX_NR_OF_FILES files is rejected, and
    a running total above VISION_MAX_TOTAL_SIZE is rejected. Returns the
    allBinaryFiles list handed to sendVisionImportRequest. -/
def importVisionDataFromAllItemsFiles
    (read : Nat → String → Except VisionError Bytes)
    (items : List InputItem) (binaryPropertyName : String) :
    Except VisionError (List BinaryFile) :=
  if items.length = 0 then .error .noInputItems
  else
    match items.enum.foldlM (collectItemStep read binaryPropertyName) ([], 0) with
    | .error e => .error e
    | .ok result =>
      if result.1.length = 0 then
        .error (.noFilesProvided binaryPropertyName)
      else if result.1.length > VISION_MAX_NR_OF_FILES then
        .error (.tooManyFiles result.1.length)
      else if result.2 > VISION_MAX_TOTAL_SIZE then
        .error (.totalSizeExceeded result.2)
      else .ok result.1

/-- importVisionDataFromAllItems, end to end: collect the files of all
    items, then hand them to sendVisionImportRequest (which reads its
    scalar parameters at item index 0). -/
def importVisionDataFromAllItems
    (read : Nat → String → Except VisionError Bytes)
    (items : List InputItem) (binaryPropertyName : String)
    (params : VisionParams) : Except VisionError (List FormPart) :=
  (importVisionDataFromAllItemsFiles read items binaryPropertyName).bind
    (fun files => sendVisionImportRequest params files)

/-- Modelled from the spec, section 4.2 collect-all-items mode: the
    attachments one item contributes to the flattened list. An item
    lacking the designated binary property contributes none; otherwise it
    contributes its designated attachment followed by its opportunistic
    extra attachments in property order, under the same validation policy
    as the pipeline. Used as the specification side of the flattening
    claim. -/
def specItemAttachments (read : String → Except VisionError Bytes)
    (binaryPropertyName : String) (item : InputItem) :
    Except VisionError (List BinaryFile) :=
  match binaryLookup item binaryPropertyName with
  | none => .ok []
  | some binaryData =>
    let fileName := jsOrString binaryData.fileName "file"
    if !validateFileType fileName then
      .error (.unsupportedFileTypeAll fileName (getFileExtension fileName))
    else
      match read binaryPropertyName with
      | .error e => .error e
      | .ok fileData =>
        (collectItemStepAfterRead read binaryPropertyName binaryData
          (item.binary.getD []) ([], 0) fileData).map (fun r => r.1)

/-- Modelled from the spec, section 4.1 step 2: the byte segment emitted
    for one field, as the spec enumerates it. -/
def specFieldSegment (boundary : String) (f : MultipartField) : Bytes :=
  utf8Encode ("--" ++ boundary ++ CRLF)
  ++ utf8Encode ("Content-Disposition: form-data; name=\"" ++ escapeQuotedString f.name ++ "\"" ++ CRLF ++ CRLF)
  ++ utf8Encode f.value
  ++ utf8Encode CRLF

/-- Modelled from the spec, section 4.1 step 3: the byte segment emitted
    for one file, with contentType defaulting to application/octet-stream. -/
def specFileSegment (boundary : String) (f : MultipartFile) : Bytes :=
  utf8Encode ("--" ++ boundary ++ CRLF)
  ++ utf8Encode ("Content-Disposition: form-data; name=\"" ++ escapeQuotedString f.name ++ "\"; filename=\"" ++ encodeFilename f.filename ++ "\"" ++ CRLF)
  ++ utf8Encode ("Content-Type: " ++ (f.contentType).getD "application/octet-stream" ++ CRLF ++ CRLF)
  ++ f.data
  ++ utf8Encode CRLF

/-- Modelled from the spec, section 4.1 steps 2-5: field segments in input
    order, then file segments in input order, then the closing delimiter,
    concatenated into one byte sequence. -/
def specMultipartBody (boundary : String)
    (fields : List MultipartField) (files : List MultipartFile) : Bytes :=
  fields.flatMap (specFieldSegment boundary)
  ++ files.flatMap (specFileSegment boundary)
  ++ utf8Encode ("--" ++ boundary ++ "--" ++ CRLF)

/-- Modelled from the spec, section 4.2: the extension is the lowercased
    substring after the last dot, empty when the filename has no dot. -/
def specExtension (filename : String) : String :=
  if dotChar ∈ filename.data then
    toLowerString ⟨(filename.data.reverse.takeWhile (fun c => c ≠ dotChar)).reverse⟩
  else ""

/-- The encoding of one character as it stands after encodeURIComponent
    and the global tick replacement: an unreserved character other than
    the tick survives, the tick becomes its percent escape, anything else
    becomes the percent escapes of its UTF-8 bytes. -/
def encTickChar (c : Char) : List Char :=
  if isUriUnreserved c then
    (if c = tickChar then "%27".data else [c])
  else (utf8EncodeCharNat c.toNat).flatMap percentByte

example : utf8Encode "ab" = [97, 98] := by decide

example : escapeQuotedString "a\\b\"c" = "a\\\\b\\\"c" := by decide

example : encodeFilename "a.png" = "a.png" := by decide

example : encodeFilename "café.png" = rfc2231Prefix ++ "caf%C3%A9.png" := by decide

example : encodeFilename "\"" = rfc2231Prefix ++ "%22" := by decide

example : safeFilenameTest "" = false := by decide

example : percentDecodeString "caf%C3%A9.png" = some "café.png" := by decide

example : percentDecodeString "a%27b" = some (⟨['a', tickChar, 'b']⟩ : String) := by decide

example : getFileExtension "a.b.PNG" = "png" := by decide

example : getFileExtension "file." = "" := by decide

example : getFileExtension "file" = "" := by decide

example : getFileExtension ".png" = "png" := by decide

example : validateFileType "FILE.PNG" = true := by decide

example : validateFileType "a.txt" = false := by decide

example :
    importVisionDataFiles (fun _ => .ok [7]) ⟨some [("data", ⟨some "a.png", some "image/png"⟩)]⟩ "data"
      = .ok [⟨[7], "a.png", some "image/png"⟩] := rfl

example :
    importVisionDataFiles (fun _ => .ok [7]) ⟨some [("data", ⟨some "a.txt", none⟩)]⟩ "data"
      = .error (.unsupportedFileTypeSingle "txt") := rfl

example :
    importVisionDataFromAllItemsFiles (fun _ _ => .ok [7]) [] "data"
      = .error .noInputItems := rfl

example :
    importVisionDataFromAllItemsFiles (fun i _ => .ok [i])
      [⟨some [("data", ⟨some "a.png", none⟩)]⟩, ⟨none⟩, ⟨some [("data", ⟨some "c.pdf", none⟩)]⟩] "data"
      = .ok [⟨[0], "a.png", none⟩, ⟨[2], "c.pdf", none⟩] := rfl

example :
    sendVisionImportRequest ⟨"", "", "", "create", false, ""⟩ [⟨[1], "a.png", none⟩]
      = .ok [.file "files" "a.png" [1] "application/octet-stream",
             .field "mode" "create", .field "merge" "false"] := rfl

/-- Flattening a flatMap of part lists is the flatMap of the flattened
    parts. -/
theorem flatten_flatMap {α β : Type} (l : List α) (f : α → List (List β)) :
    (l.flatMap f).flatten = l.flatMap (fun a => (f a).flatten) := by
  induction l with
  | nil => rfl
  | cons a as ih => simp [List.flatMap_cons, List.flatten_append, ih]

/-- C1: for every boundary, ordered field list and ordered file list,
    buildMultipartFormData returns exactly the concatenation the spec
    enumerates — per field the boundary line, the Content-Disposition
    header with the escaped name and a blank line, the UTF-8 value bytes
    and CRLF; per file the boundary line, the Content-Disposition header
    with escaped name and encoded filename, the Content-Type line
    (defaulting to application/octet-stream) with a blank line, the raw
    bytes and CRLF; then the closing delimiter — paired with the header
    value multipart/form-data; boundary= followed by the same boundary. -/
theorem buildMultipartFormData_matches_spec (boundary : String)
    (fields : List MultipartField) (files : List MultipartFile) :
    buildMultipartFormData boundary fields files =
      (specMultipartBody boundary fields files,
       "multipart/form-data; boundary=" ++ boundary) := by
  have hfield : ∀ (fs : List MultipartField),
      (fs.flatMap (fieldPartBuffers boundary)).flatten
        = fs.flatMap (specFieldSegment boundary) := by
    intro fs
    induction fs with
    | nil => rfl
    | cons f rest ih =>
      simp [List.flatMap_cons, List.flatten_append, ih, fieldPartBuffers,
        specFieldSegment, escapeFieldName, List.append_assoc]
  have hfile : ∀ (fs : List MultipartFile),
      (fs.flatMap (filePartBuffers boundary)).flatten
        = fs.flatMap (specFileSegment boundary) := by
    intro fs
    induction fs with
    | nil => rfl
    | cons f rest ih =>
      simp [List.flatMap_cons, List.flatten_append, ih, filePartBuffers,
        specFileSegment, escapeFieldName, List.append_assoc]
  unfold buildMultipartFormData specMultipartBody
  simp [List.flatten_append, hfield, hfile, List.append_assoc]

/-- Taking while over an append: all of the first part passes and the
    scan continues into the second, or the scan already stops inside the
    first part. -/
theorem takeWhile_append_eq {α : Type} (p : α → Bool) (l1 l2 : List α) :
    (l1 ++ l2).takeWhile p =
      if l1.all p then l1 ++ l2.takeWhile p else l1.takeWhile p := by
  induction l1 with
  | nil => simp
  | cons a t ih =>
    by_cases h : p a = true
    · by_cases ht : t.all p = true
      · simp [List.takeWhile_cons, h, ih, ht]
      · simp [List.takeWhile_cons, h, ih, ht]
    · simp [List.takeWhile_cons, h, Bool.eq_false_iff.mpr h]

/-- A list all of whose elements pass is its own takeWhile. -/
theorem takeWhile_eq_self_of_all {α : Type} (p : α → Bool) (l : List α)
    (h : l.all p = true) : l.takeWhile p = l := by
  induction l with
  | nil => rfl
  | cons a t ih =>
    simp only [List.all_cons, Bool.and_eq_true] at h
    simp [List.takeWhile_cons, h.1, ih h.2]

/-- getLastD on a cons forwards to the tail with the head as fallback. -/
theorem getLastD_cons {α : Type} (a : α) (l : List α) (d : α) :
    (a :: l).getLastD d = l.getLastD a := by
  cases l <;> rfl

/-- getLastD of a non-empty list ignores the fallback. -/
theorem getLastD_irrel {α : Type} (l : List α) (h : l ≠ []) (d e : α) :
    l.getLastD d = l.getLastD e := by
  cases l with
  | nil => exact absurd rfl h
  | cons a as => rfl

/-- Unfolding splitOnChar on a cons once the tail split is known. -/
theorem splitOnChar_cons_eq (sep c : Char) (cs : List Char)
    (g : List Char) (gs : List (List Char))
    (h : splitOnChar sep cs = g :: gs) :
    splitOnChar sep (c :: cs) =
      if c = sep then [] :: g :: gs else (c :: g) :: gs := by
  have hm : splitOnChar sep (c :: cs)
      = match splitOnChar sep cs with
        | [] => [[]]
        | g :: gs => if c = sep then [] :: g :: gs else (c :: g) :: gs := rfl
  rw [hm, h]

/-- splitOnChar never produces an empty group list. -/
theorem splitOnChar_ne_nil (sep : Char) (l : List Char) :
    splitOnChar sep l ≠ [] := by
  induction l with
  | nil => simp [splitOnChar]
  | cons c cs ih =>
    cases hs : splitOnChar sep cs with
    | nil => exact absurd hs ih
    | cons g gs =>
      rw [splitOnChar_cons_eq sep c cs g gs hs]
      split <;> simp

/-- The group count of splitOnChar exceeds one exactly when the separator
    occurs, and the last group is the reversed longest separator-free
    prefix of the reversed input, i.e. the substring after the last
    separator. -/
theorem splitOnChar_lastD (sep : Char) (l : List Char) :
    ((splitOnChar sep l).length > 1 ↔ sep ∈ l) ∧
    (splitOnChar sep l).getLastD [] =
      (l.reverse.takeWhile (fun c => c ≠ sep)).reverse := by
  induction l with
  | nil => simp [splitOnChar]
  | cons c cs ih =>
    obtain ⟨ih1, ih2⟩ := ih
    cases hs : splitOnChar sep cs with
    | nil => exact absurd hs (splitOnChar_ne_nil sep cs)
    | cons g gs =>
      rw [hs] at ih1 ih2
      have hrev : (c :: cs).reverse = cs.reverse ++ [c] := by simp
      by_cases hall : cs.reverse.all (fun x => x ≠ sep) = true
      · have hnodot : ¬ sep ∈ cs := by
          intro hmem
          have hm : sep ∈ cs.reverse := List.mem_reverse.mpr hmem
          have := List.all_eq_true.mp hall sep hm
          simp at this
        have hgs : gs = [] := by
          by_contra hne
          have hlen : (g :: gs).length > 1 := by
            cases gs with
            | nil => exact absurd rfl hne
            | cons a b => simp
          exact hnodot (ih1.mp hlen)
        subst hgs
        have hg : g = cs := by
          rw [takeWhile_eq_self_of_all _ _ hall, List.reverse_reverse] at ih2
          exact ih2
        by_cases hc : c = sep
        · refine ⟨?_, ?_⟩
          · rw [splitOnChar_cons_eq sep c cs g [] hs, if_pos hc]
            constructor
            · intro _
              exact List.mem_cons.mpr (Or.inl hc.symm)
            · intro _
              simp
          · rw [splitOnChar_cons_eq sep c cs g [] hs, if_pos hc]
            rw [hrev, takeWhile_append_eq, if_pos hall]
            have h1 : List.takeWhile (fun x => decide (x ≠ sep)) [c] = [] := by
              simp [List.takeWhile_cons, hc]
            rw [h1]
            have h2 : (([] : List Char) :: g :: []).getLastD [] = g := rfl
            rw [h2, hg]
            simp [takeWhile_eq_self_of_all _ _ hall]
        · refine ⟨?_, ?_⟩
          · rw [splitOnChar_cons_eq sep c cs g [] hs, if_neg hc]
            simp only [List.length_cons, List.length_nil]
            constructor
            · intro h
              omega
            · intro hmem
              rcases List.mem_cons.mp hmem with h | h
              · exact absurd h.symm hc
              · exact absurd h hnodot
          · rw [splitOnChar_cons_eq sep c cs g [] hs, if_neg hc]
            rw [hrev, takeWhile_append_eq, if_pos hall]
            have h1 : List.takeWhile (fun x => decide (x ≠ sep)) [c] = [c] := by
              simp [List.takeWhile_cons, hc]
            rw [h1]
            have h2 : ((c :: g) :: ([] : List (List Char))).getLastD [] = c :: g := rfl
            rw [h2, hg]
            simp [takeWhile_eq_self_of_all _ _ hall]
      · have hdot : sep ∈ cs := by
          have hex : ∃ x ∈ cs.reverse, ¬ (fun x => decide (x ≠ sep)) x = true := by
            by_contra hno
            push_neg at hno
            exact hall (List.all_eq_true.mpr hno)
          obtain ⟨x, hx, hpx⟩ := hex
          have hxs : x = sep := by simpa using hpx
          subst hxs
          exact List.mem_reverse.mp hx
        have hlen : (g :: gs).length > 1 := ih1.mpr hdot
        have hgs : gs ≠ [] := by
          cases gs with
          | nil => simp at hlen
          | cons a b => simp
        by_cases hc : c = sep
        · refine ⟨?_, ?_⟩
          · rw [splitOnChar_cons_eq sep c cs g gs hs, if_pos hc]
            constructor
            · intro _
              exact List.mem_cons.mpr (Or.inl hc.symm)
            · intro _
              simp
          · rw [splitOnChar_cons_eq sep c cs g gs hs, if_pos hc]
            rw [hrev, takeWhile_append_eq, if_neg hall]
            rw [getLastD_cons]
            exact ih2
        · refine ⟨?_, ?_⟩
          · rw [splitOnChar_cons_eq sep c cs g gs hs, if_neg hc]
            simp only [List.length_cons] at ih1 ⊢
            rw [List.mem_cons]
            constructor
            · intro h
              exact Or.inr (ih1.mp h)
            · intro h
              rcases h with h | h
              · exact absurd h.symm hc
              · exact ih1.mpr h
          · rw [splitOnChar_cons_eq sep c cs g gs hs, if_neg hc]
            rw [hrev, takeWhile_append_eq, if_neg hall]
            rw [getLastD_cons, getLastD_irrel gs hgs (c :: g) g, ← getLastD_cons]
            exact ih2

/-- getFileExtension computes exactly the spec's extension. -/
theorem getFileExtension_eq_spec (f : String) :
    getFileExtension f = specExtension f := by
  obtain ⟨h1, h2⟩ := splitOnChar_lastD dotChar f.data
  simp only [getFileExtension, specExtension]
  by_cases hdot : dotChar ∈ f.data
  · rw [if_pos hdot, if_pos (h1.mpr hdot), h2]
  · have hnot : ¬ (splitOnChar dotChar f.data).length > 1 := fun h => hdot (h1.mp h)
    rw [if_neg hdot, if_neg hnot]

/-- C8: validateFileType accepts a filename exactly when the lowercased
    substring after the last dot (empty when there is no dot) is a member
    of the allowed-type list png, jpg, jpeg, webp, pdf, heic, csv, tsv,
    xls, xlsx; matching is case-insensitive, so FILE.PNG and file.png both
    validate. -/
theorem validateFileType_iff_specExtension (filename : String) :
    (validateFileType filename = true ↔
      specExtension filename ∈ VISION_ALLOWED_FILE_TYPES) ∧
    validateFileType "FILE.PNG" = true ∧ validateFileType "file.png" = true := by
  refine ⟨?_, by decide, by decide⟩
  unfold validateFileType
  rw [getFileExtension_eq_spec]
  exact List.elem_iff

/-- The regex test of encodeFilename, characterised arithmetically: the
    filename is non-empty and every character is printable ASCII other
    than double-quote (0x22) and backslash (0x5C). -/
theorem safeFilenameTest_iff (f : String) :
    safeFilenameTest f = true ↔
      (f ≠ "" ∧ ∀ c ∈ f.data,
        32 ≤ c.toNat ∧ c.toNat ≤ 126 ∧ c.toNat ≠ 34 ∧ c.toNat ≠ 92) := by
  unfold safeFilenameTest
  rw [Bool.and_eq_true]
  constructor
  · rintro ⟨h1, h2⟩
    refine ⟨?_, ?_⟩
    · intro hempty
      rw [hempty] at h1
      simp at h1
    · intro c hc
      have := List.all_eq_true.mp h2 c hc
      revert this
      simp only [isSafeFilenameChar, Bool.or_eq_true, Bool.and_eq_true,
        decide_eq_true_eq]
      omega
  · rintro ⟨h1, h2⟩
    refine ⟨?_, ?_⟩
    · have hne : f.data ≠ [] := by
        intro hh
        exact h1 (String.ext hh)
      simp [List.isEmpty_eq_false.mpr hne]
    · refine List.all_eq_true.mpr (fun c hc => ?_)
      have := h2 c hc
      simp only [isSafeFilenameChar, Bool.or_eq_true, Bool.and_eq_true,
        decide_eq_true_eq]
      omega

/-- replaceChar leaves a string without the replaced character unchanged. -/
theorem replaceChar_eq_self (c : Char) (r : String) (s : String)
    (h : ∀ a ∈ s.data, a ≠ c) : replaceChar c r s = s := by
  unfold replaceChar
  have hd : s.data.flatMap (fun a => if a = c then r.data else [a])
      = s.data.flatMap (fun a => [a]) := by
    refine List.flatMap_congr (fun a ha => ?_)
    rw [if_neg (h a ha)]
  rw [hd, List.flatMap_singleton']

/-- escapeQuotedString is the identity on strings containing neither a
    backslash nor a double-quote. -/
theorem escapeQuotedString_eq_self (f : String)
    (h : ∀ c ∈ f.data, c.toNat ≠ 34 ∧ c.toNat ≠ 92) :
    escapeQuotedString f = f := by
  unfold escapeQuotedString
  have hb : replaceChar backslashChar "\\\\" f = f := by
    refine replaceChar_eq_self _ _ _ (fun a ha => ?_)
    intro hh
    have : a.toNat = 92 := by rw [hh]; decide
    exact (h a ha).2 this
  rw [hb]
  refine replaceChar_eq_self _ _ _ (fun a ha => ?_)
  intro hh
  have : a.toNat = 34 := by rw [hh]; decide
  exact (h a ha).1 this

/-- Every Unicode scalar value fits the four-byte UTF-8 range. -/
theorem char_toNat_lt (c : Char) : c.toNat < 1114112 := by
  have he : c.toNat = c.val.toNat := rfl
  rcases c.valid with h | h
  · omega
  · omega

/-- A hex digit round-trips through hexVal, all sixteen cases. -/
theorem hexVal_hexDigit_all : ∀ n < 16, hexVal (hexDigit n) = some n := by
  decide

/-- A hex digit round-trips through hexVal. -/
theorem hexVal_hexDigit (n : Nat) (h : n < 16) :
    hexVal (hexDigit n) = some n :=
  hexVal_hexDigit_all n h

/-- The bytes of a UTF-8 encoding are bytes. -/
theorem utf8EncodeCharNat_lt (n : Nat) (h : n < 1114112) :
    ∀ b ∈ utf8EncodeCharNat n, b < 256 := by
  intro b hb
  unfold utf8EncodeCharNat at hb
  by_cases h1 : n < 0x80
  · rw [if_pos h1] at hb
    simp at hb
    omega
  · rw [if_neg h1] at hb
    by_cases h2 : n < 0x800
    · rw [if_pos h2] at hb
      simp at hb
      rcases hb with hb | hb <;> omega
    · rw [if_neg h2] at hb
      by_cases h3 : n < 0x10000
      · rw [if_pos h3] at hb
        simp at hb
        rcases hb with hb | hb | hb <;> omega
      · rw [if_neg h3] at hb
        simp at hb
        rcases hb with hb | hb | hb | hb <;> omega

/-- Percent-decoding consumes one percent escape into its byte. -/
theorem percentDecodeBytes_escape (b : Nat) (h : b < 256) (rest : List Char) :
    percentDecodeBytes (percentByte b ++ rest) =
      (percentDecodeBytes rest).map (fun bs => b :: bs) := by
  have h37 : (Char.ofNat 37).toNat = 37 := by decide
  have ha : hexVal (hexDigit (b / 16)) = some (b / 16) :=
    hexVal_hexDigit _ (by omega)
  have hb : hexVal (hexDigit (b % 16)) = some (b % 16) :=
    hexVal_hexDigit _ (by omega)
  have hval : 16 * (b / 16) + b % 16 = b := by omega
  simp [percentByte, percentDecodeBytes, h37, ha, hb, hval]

/-- Percent-decoding consumes a run of percent escapes into its bytes. -/
theorem percentDecodeBytes_escapes (bs : List Nat) (h : ∀ b ∈ bs, b < 256)
    (rest : List Char) :
    percentDecodeBytes (bs.flatMap percentByte ++ rest) =
      (percentDecodeBytes rest).map (fun tail => bs ++ tail) := by
  induction bs with
  | nil =>
    simp
  | cons b tl ih =>
    have hb : b < 256 := h b (List.mem_cons_self b tl)
    have htl : ∀ x ∈ tl, x < 256 := fun x hx => h x (List.mem_cons_of_mem b hx)
    rw [List.flatMap_cons, List.append_assoc, percentDecodeBytes_escape b hb,
      ih htl]
    cases percentDecodeBytes rest <;> rfl

/-- Percent-decoding passes one literal non-percent character through as
    its UTF-8 bytes. -/
theorem percentDecodeBytes_literal (c : Char) (h : c.toNat ≠ 37)
    (cs : List Char) :
    percentDecodeBytes (c :: cs) =
      (percentDecodeBytes cs).map (fun bs => utf8EncodeCharNat c.toNat ++ bs) := by
  match cs with
  | [] => simp [percentDecodeBytes, h]
  | [h1] => simp [percentDecodeBytes, h]
  | h1 :: h2 :: rest => simp [percentDecodeBytes, h]

/-- One UTF-8 decoding step never lengthens the remaining byte list. -/
theorem utf8DecodeOne_length (b : Nat) (bs : List Nat) (n : Nat) (rest : List Nat)
    (h : utf8DecodeOne b bs = some (n, rest)) : rest.length ≤ bs.length := by
  match bs, h with
  | [], h =>
    revert h
    unfold utf8DecodeOne
    intro h
    split_ifs at h <;> simp_all
  | [b1], h =>
    revert h
    unfold utf8DecodeOne
    intro h
    split_ifs at h <;> simp_all
  | [b1, b2], h =>
    revert h
    unfold utf8DecodeOne
    intro h
    split_ifs at h <;> simp_all
  | b1 :: b2 :: b3 :: r, h =>
    revert h
    unfold utf8DecodeOne
    intro h
    split_ifs at h <;> simp_all <;> omega

/-- Any sufficient fuel computes the same UTF-8 decoding. -/
theorem utf8DecodeNatsFuel_invariant (f1 : Nat) :
    ∀ (f2 : Nat) (l : List Nat), l.length ≤ f1 → l.length ≤ f2 →
      utf8DecodeNatsFuel f1 l = utf8DecodeNatsFuel f2 l := by
  induction f1 with
  | zero =>
    intro f2 l h1 h2
    cases l with
    | nil => cases f2 <;> rfl
    | cons b bs => simp at h1
  | succ g1 ih =>
    intro f2 l h1 h2
    cases l with
    | nil => cases f2 <;> rfl
    | cons b bs =>
      cases f2 with
      | zero => simp at h2
      | succ g2 =>
        cases hd : utf8DecodeOne b bs with
        | none => simp [utf8DecodeNatsFuel, hd]
        | some p =>
          obtain ⟨n, rest⟩ := p
          have hr : rest.length ≤ bs.length := utf8DecodeOne_length b bs n rest hd
          simp only [List.length_cons] at h1 h2
          simp [utf8DecodeNatsFuel, hd, ih g2 rest (by omega) (by omega)]

/-- UTF-8 decoding of the empty byte sequence. -/
theorem utf8DecodeNats_nil : utf8DecodeNats [] = some [] := rfl

/-- UTF-8 decoding unfolds by one decoding step. -/
theorem utf8DecodeNats_cons_some (b : Nat) (bs : List Nat) (n : Nat) (rest : List Nat)
    (h : utf8DecodeOne b bs = some (n, rest)) :
    utf8DecodeNats (b :: bs) = (utf8DecodeNats rest).map (fun ns => n :: ns) := by
  have hr : rest.length ≤ bs.length := utf8DecodeOne_length b bs n rest h
  unfold utf8DecodeNats
  simp only [List.length_cons]
  simp [utf8DecodeNatsFuel, h,
    utf8DecodeNatsFuel_invariant bs.length rest.length rest hr (Nat.le_refl _)]

/-- UTF-8 decoding inverts the UTF-8 encoding of one scalar value at the
    head of a byte sequence. -/
theorem utf8DecodeNats_encodeChar (n : Nat) (h : n < 1114112) (bs : List Nat) :
    utf8DecodeNats (utf8EncodeCharNat n ++ bs) =
      (utf8DecodeNats bs).map (fun ns => n :: ns) := by
  by_cases h1 : n < 0x80
  · have he : utf8EncodeCharNat n = [n] := by
      unfold utf8EncodeCharNat
      rw [if_pos h1]
    rw [he, show ([n] : List Nat) ++ bs = n :: bs from by simp]
    refine utf8DecodeNats_cons_some _ _ _ _ ?_
    unfold utf8DecodeOne
    rw [if_pos h1]
  · by_cases h2 : n < 0x800
    · have he : utf8EncodeCharNat n = [0xC0 + n / 64, 0x80 + n % 64] := by
        unfold utf8EncodeCharNat
        rw [if_neg h1, if_pos h2]
      rw [he, show ([0xC0 + n / 64, 0x80 + n % 64] : List Nat) ++ bs
            = (0xC0 + n / 64) :: (0x80 + n % 64) :: bs from by simp]
      refine utf8DecodeNats_cons_some _ _ _ _ ?_
      unfold utf8DecodeOne
      rw [if_neg (by omega : ¬ (0xC0 + n / 64 < 0x80)),
        if_neg (by omega : ¬ (0xC0 + n / 64 < 0xC0)),
        if_pos (by omega : 0xC0 + n / 64 < 0xE0)]
      show (if 0x80 ≤ 0x80 + n % 64 ∧ 0x80 + n % 64 < 0xC0 then
              some ((0xC0 + n / 64 - 0xC0) * 64 + (0x80 + n % 64 - 0x80), bs)
            else none) = some (n, bs)
      rw [if_pos (by omega : 0x80 ≤ 0x80 + n % 64 ∧ 0x80 + n % 64 < 0xC0)]
      simp only [Option.some.injEq, Prod.mk.injEq]
      exact ⟨by omega, trivial⟩
    · by_cases h3 : n < 0x10000
      · have he : utf8EncodeCharNat n
            = [0xE0 + n / 4096, 0x80 + (n / 64) % 64, 0x80 + n % 64] := by
          unfold utf8EncodeCharNat
          rw [if_neg h1, if_neg h2, if_pos h3]
        rw [he, show ([0xE0 + n / 4096, 0x80 + (n / 64) % 64, 0x80 + n % 64] : List Nat) ++ bs
              = (0xE0 + n / 4096) :: (0x80 + (n / 64) % 64) :: (0x80 + n % 64) :: bs from by simp]
        refine utf8DecodeNats_cons_some _ _ _ _ ?_
        unfold utf8DecodeOne
        rw [if_neg (by omega : ¬ (0xE0 + n / 4096 < 0x80)),
          if_neg (by omega : ¬ (0xE0 + n / 4096 < 0xC0)),
          if_neg (by omega : ¬ (0xE0 + n / 4096 < 0xE0)),
          if_pos (by omega : 0xE0 + n / 4096 < 0xF0)]
        show (if (0x80 ≤ 0x80 + (n / 64) % 64 ∧ 0x80 + (n / 64) % 64 < 0xC0)
                ∧ (0x80 ≤ 0x80 + n % 64 ∧ 0x80 + n % 64 < 0xC0) then
                some ((0xE0 + n / 4096 - 0xE0) * 4096
                  + (0x80 + (n / 64) % 64 - 0x80) * 64 + (0x80 + n % 64 - 0x80), bs)
              else none) = some (n, bs)
        rw [if_pos (by omega : (0x80 ≤ 0x80 + (n / 64) % 64 ∧ 0x80 + (n / 64) % 64 < 0xC0)
          ∧ (0x80 ≤ 0x80 + n % 64 ∧ 0x80 + n % 64 < 0xC0))]
        simp only [Option.some.injEq, Prod.mk.injEq]
        exact ⟨by omega, trivial⟩
      · have he : utf8EncodeCharNat n
            = [0xF0 + n / 262144, 0x80 + (n / 4096) % 64, 0x80 + (n / 64) % 64, 0x80 + n % 64] := by
          unfold utf8EncodeCharNat
          rw [if_neg h1, if_neg h2, if_neg h3]
        rw [he, show ([0xF0 + n / 262144, 0x80 + (n / 4096) % 64, 0x80 + (n / 64) % 64, 0x80 + n % 64] : List Nat) ++ bs
              = (0xF0 + n / 262144) :: (0x80 + (n / 4096) % 64) :: (0x80 + (n / 64) % 64) :: (0x80 + n % 64) :: bs from by simp]
        refine utf8DecodeNats_cons_some _ _ _ _ ?_
        unfold utf8DecodeOne
        rw [if_neg (by omega : ¬ (0xF0 + n / 262144 < 0x80)),
          if_neg (by omega : ¬ (0xF0 + n / 262144 < 0xC0)),
          if_neg (by omega : ¬ (0xF0 + n / 262144 < 0xE0)),
          if_neg (by omega : ¬ (0xF0 + n / 262144 < 0xF0)),
          if_pos (by omega : 0xF0 + n / 262144 < 0xF8)]
        show (if (0x80 ≤ 0x80 + (n / 4096) % 64 ∧ 0x80 + (n / 4096) % 64 < 0xC0)
                ∧ (0x80 ≤ 0x80 + (n / 64) % 64 ∧ 0x80 + (n / 64) % 64 < 0xC0)
                ∧ (0x80 ≤ 0x80 + n % 64 ∧ 0x80 + n % 64 < 0xC0) then
                some ((0xF0 + n / 262144 - 0xF0) * 262144
                  + (0x80 + (n / 4096) % 64 - 0x80) * 4096
                  + (0x80 + (n / 64) % 64 - 0x80) * 64 + (0x80 + n % 64 - 0x80), bs)
              else none) = some (n, bs)
        rw [if_pos (by omega : (0x80 ≤ 0x80 + (n / 4096) % 64 ∧ 0x80 + (n / 4096) % 64 < 0xC0)
          ∧ (0x80 ≤ 0x80 + (n / 64) % 64 ∧ 0x80 + (n / 64) % 64 < 0xC0)
          ∧ (0x80 ≤ 0x80 + n % 64 ∧ 0x80 + n % 64 < 0xC0))]
        simp only [Option.some.injEq, Prod.mk.injEq]
        exact ⟨by omega, trivial⟩

/-- UTF-8 decoding inverts the UTF-8 encoding of a character list. -/
theorem utf8DecodeNats_encodeList (l : List Char) :
    utf8DecodeNats (l.flatMap (fun c => utf8EncodeCharNat c.toNat))
      = some (l.map Char.toNat) := by
  induction l with
  | nil => exact utf8DecodeNats_nil
  | cons c cs ih =>
    rw [List.flatMap_cons, utf8DecodeNats_encodeChar _ (char_toNat_lt c) _, ih]
    rfl

/-- UTF-8 decoding inverts utf8Encode. -/
theorem utf8DecodeNats_utf8Encode (s : String) :
    utf8DecodeNats (utf8Encode s) = some (s.data.map Char.toNat) :=
  utf8DecodeNats_encodeList s.data

/-- No character of a percent escape of a byte is the tick. -/
theorem percentByte_no_tick (b : Nat) (h : b < 256) :
    ∀ a ∈ percentByte b, a ≠ tickChar := by
  have hd : ∀ k < 16, (hexDigit k).toNat ≠ 39 := by decide
  intro a ha
  intro hcontra
  have h39 : a.toNat = 39 := by rw [hcontra]; decide
  simp only [percentByte, List.mem_cons, List.not_mem_nil, or_false] at ha
  rcases ha with ha | ha | ha
  · rw [ha] at h39
    exact absurd h39 (by decide)
  · rw [ha] at h39
    exact absurd h39 (hd (b / 16) (by omega))
  · rw [ha] at h39
    exact absurd h39 (hd (b % 16) (by omega))

/-- The tick replacement is the identity on a character list without the
    tick. -/
theorem flatMap_tickReplace_id (l : List Char) (r : String)
    (h : ∀ a ∈ l, a ≠ tickChar) :
    l.flatMap (fun a => if a = tickChar then r.data else [a]) = l := by
  have hc : l.flatMap (fun a => if a = tickChar then r.data else [a])
      = l.flatMap (fun a => [a]) := by
    refine List.flatMap_congr (fun a ha => ?_)
    rw [if_neg (h a ha)]
  rw [hc, List.flatMap_singleton']

/-- The tick replacement after encodeURIComponent acts per character. -/
theorem replaceChar_encodeURIComponent (s : String) :
    (replaceChar tickChar "%27" (encodeURIComponent s)).data
      = s.data.flatMap encTickChar := by
  show (s.data.flatMap (fun c =>
      if isUriUnreserved c then [c]
      else (utf8EncodeCharNat c.toNat).flatMap percentByte)).flatMap
        (fun a => if a = tickChar then "%27".data else [a])
    = s.data.flatMap encTickChar
  rw [List.flatMap_assoc]
  refine List.flatMap_congr (fun c hc => ?_)
  by_cases hu : isUriUnreserved c = true
  · rw [if_pos hu]
    unfold encTickChar
    rw [if_pos hu]
    by_cases ht : c = tickChar
    · simp [ht]
    · simp [ht]
  · rw [if_neg hu]
    unfold encTickChar
    rw [if_neg hu]
    refine flatMap_tickReplace_id _ _ (fun a ha => ?_)
    obtain ⟨b, hb, hab⟩ := List.mem_flatMap.mp ha
    have hb256 : b < 256 := utf8EncodeCharNat_lt c.toNat (char_toNat_lt c) b hb
    exact percentByte_no_tick b hb256 a hab

/-- An unreserved character is not the percent sign. -/
theorem isUriUnreserved_ne_37 (c : Char) (h : isUriUnreserved c = true) :
    c.toNat ≠ 37 := by
  revert h
  unfold isUriUnreserved
  simp only [Bool.or_eq_true, Bool.and_eq_true, decide_eq_true_eq, beq_iff_eq]
  omega

/-- Percent-decoding recovers the UTF-8 bytes of the original characters
    from the tick-replaced encodeURIComponent image. -/
theorem percentDecodeBytes_encTick (l : List Char)
    (h : ∀ c ∈ l, c.toNat < 1114112) :
    percentDecodeBytes (l.flatMap encTickChar)
      = some (l.flatMap (fun c => utf8EncodeCharNat c.toNat)) := by
  induction l with
  | nil => rfl
  | cons c cs ih =>
    have hc : c.toNat < 1114112 := h c (List.mem_cons_self c cs)
    have hcs : ∀ x ∈ cs, x.toNat < 1114112 :=
      fun x hx => h x (List.mem_cons_of_mem c hx)
    rw [List.flatMap_cons, List.flatMap_cons]
    by_cases hu : isUriUnreserved c = true
    · by_cases ht : c = tickChar
      · have hhead : encTickChar c = percentByte 39 := by
          unfold encTickChar
          rw [if_pos hu, if_pos ht]
          decide
        have henc : utf8EncodeCharNat c.toNat = [39] := by
          rw [ht]
          decide
        rw [hhead, percentDecodeBytes_escape 39 (by omega), ih hcs, henc]
        rfl
      · have hhead : encTickChar c = [c] := by
          unfold encTickChar
          rw [if_pos hu, if_neg ht]
        rw [hhead,
          show ([c] ++ cs.flatMap encTickChar) = c :: cs.flatMap encTickChar from rfl,
          percentDecodeBytes_literal c (isUriUnreserved_ne_37 c hu), ih hcs]
        rfl
    · have hhead : encTickChar c = (utf8EncodeCharNat c.toNat).flatMap percentByte := by
        unfold encTickChar
        rw [if_neg hu]
      rw [hhead, percentDecodeBytes_escapes (utf8EncodeCharNat c.toNat)
        (utf8EncodeCharNat_lt c.toNat hc), ih hcs]
      rfl

/-- The RFC 2231 payload emitted by encodeFilename percent-decodes back to
    the original filename. -/
theorem percentDecode_encode_roundtrip (s : String) :
    percentDecodeString (replaceChar tickChar "%27" (encodeURIComponent s))
      = some s := by
  unfold percentDecodeString
  rw [replaceChar_encodeURIComponent,
    percentDecodeBytes_encTick s.data (fun c _ => char_toNat_lt c)]
  show (utf8DecodeNats (utf8Encode s)).map (fun ns => (⟨ns.map Char.ofNat⟩ : String)) = some s
  rw [utf8DecodeNats_utf8Encode]
  show some (⟨(s.data.map Char.toNat).map Char.ofNat⟩ : String) = some s
  rw [List.map_map]
  have hid : s.data.map (Char.ofNat ∘ Char.toNat) = s.data := by
    refine (List.map_congr_left (fun c _ => ?_)).trans (List.map_id _)
    exact Char.ofNat_toNat c
  rw [hid]

/-- C10: encodeFilename returns every non-empty filename consisting solely
    of printable ASCII characters other than double-quote and backslash
    unchanged — on that branch the quoted-string escaping is the identity,
    since the accepted class excludes the only two characters it would
    escape — and maps every other filename, the empty string included, to
    the UTF-8 double-tick prefix followed by its percent-encoding with the
    tick character additionally encoded as %27. -/
theorem encodeFilename_identity_or_rfc2231 (f : String) :
    (f ≠ "" →
      (∀ c ∈ f.data, 32 ≤ c.toNat ∧ c.toNat ≤ 126 ∧ c.toNat ≠ 34 ∧ c.toNat ≠ 92) →
      encodeFilename f = f) ∧
    (¬ (f ≠ "" ∧ ∀ c ∈ f.data,
        32 ≤ c.toNat ∧ c.toNat ≤ 126 ∧ c.toNat ≠ 34 ∧ c.toNat ≠ 92) →
      encodeFilename f
        = rfc2231Prefix ++ replaceChar tickChar "%27" (encodeURIComponent f)) ∧
    encodeFilename "" = rfc2231Prefix := by
  refine ⟨?_, ?_, by decide⟩
  · intro h1 h2
    unfold encodeFilename
    rw [if_pos ((safeFilenameTest_iff f).mpr ⟨h1, h2⟩)]
    exact escapeQuotedString_eq_self f
      (fun c hc => ⟨(h2 c hc).2.2.1, (h2 c hc).2.2.2⟩)
  · intro h
    unfold encodeFilename
    rw [if_neg (fun hs => h ((safeFilenameTest_iff f).mp hs))]

/-- C10 witness: a plain ASCII filename passes through unchanged, and a
    filename with a non-ASCII character takes the RFC 2231 branch. -/
theorem encodeFilename_identity_or_rfc2231_witness :
    encodeFilename "a.png" = "a.png" ∧
    encodeFilename "café.png"
      = rfc2231Prefix ++ replaceChar tickChar "%27" (encodeURIComponent "café.png") :=
  ⟨(encodeFilename_identity_or_rfc2231 "a.png").1 (by decide) (by decide),
   (encodeFilename_identity_or_rfc2231 "café.png").2.1 (by decide)⟩

/-- C2 counterexample: the filename consisting of a single double-quote —
    which contains only double-quote, backslash and printable ASCII
    characters — is not encoded by quoted-string escaping: it takes the
    RFC 2231 branch, yielding the UTF-8 double-tick form, which differs
    from its quoted-string escaping. -/
theorem encodeFilename_quote_not_escaped :
    encodeFilename "\"" = rfc2231Prefix ++ "%22" ∧
    encodeFilename "\"" ≠ escapeQuotedString "\"" :=
  ⟨by decide, by decide⟩

/-- C2 (amended): every non-empty filename of printable ASCII characters
    other than double-quote and backslash is encoded by quoted-string
    escaping; every other filename — those containing a double-quote,
    backslash, non-ASCII or control character, and the empty string — is
    encoded via the RFC 2231 UTF-8 double-tick form, whose percent-encoded
    payload decodes back to the original string. -/
theorem encodeFilename_escaping_cases (f : String) :
    ((f ≠ "" ∧ ∀ c ∈ f.data,
        32 ≤ c.toNat ∧ c.toNat ≤ 126 ∧ c.toNat ≠ 34 ∧ c.toNat ≠ 92) →
      encodeFilename f = escapeQuotedString f) ∧
    (¬ (f ≠ "" ∧ ∀ c ∈ f.data,
        32 ≤ c.toNat ∧ c.toNat ≤ 126 ∧ c.toNat ≠ 34 ∧ c.toNat ≠ 92) →
      percentDecodeString (replaceChar tickChar "%27" (encodeURIComponent f))
          = some f ∧
      encodeFilename f
        = rfc2231Prefix ++ replaceChar tickChar "%27" (encodeURIComponent f)) := by
  constructor
  · rintro ⟨h1, h2⟩
    unfold encodeFilename
    rw [if_pos ((safeFilenameTest_iff f).mpr ⟨h1, h2⟩)]
  · intro h
    refine ⟨percentDecode_encode_roundtrip f, ?_⟩
    unfold encodeFilename
    rw [if_neg (fun hs => h ((safeFilenameTest_iff f).mp hs))]

/-- C2 witness: a plain ASCII filename is quoted-string escaped, and the
    encoding of a filename with a non-ASCII character decodes back to it. -/
theorem encodeFilename_escaping_cases_witness :
    encodeFilename "a.png" = escapeQuotedString "a.png" ∧
    (percentDecodeString (replaceChar tickChar "%27" (encodeURIComponent "café.png"))
        = some "café.png" ∧
     encodeFilename "café.png"
       = rfc2231Prefix ++ replaceChar tickChar "%27" (encodeURIComponent "café.png")) :=
  ⟨(encodeFilename_escaping_cases "a.png").1 ⟨by decide, by decide⟩,
   (encodeFilename_escaping_cases "café.png").2 (by decide)⟩

/-- C9: whenever a table identifier is supplied with an empty spreadsheet
    (app) identifier, sendVisionImportRequest fails with the missing
    required parameter error; the check precedes the FormData assembly, so
    no multipart body is built for the request. -/
theorem sendVisionImportRequest_table_requires_app (params : VisionParams)
    (files : List BinaryFile)
    (h1 : params.tableId ≠ "") (h2 : params.appId = "") :
    sendVisionImportRequest params files = .error .missingRequiredParameter := by
  unfold sendVisionImportRequest
  rw [if_pos ⟨h1, h2⟩]

/-- C9 witness: a request with a table identifier but no app identifier. -/
theorem sendVisionImportRequest_table_requires_app_witness :
    ("t1" : String) ≠ "" ∧
    sendVisionImportRequest ⟨"", "", "t1", "create", false, ""⟩ []
      = .error .missingRequiredParameter :=
  ⟨by decide,
   sendVisionImportRequest_table_requires_app ⟨"", "", "t1", "create", false, ""⟩ []
     (by decide) rfl⟩

/-- C3 counterexample: with every scalar parameter at its node default —
    empty identifiers and instructions, mode create, merge false — the
    emitted field list still contains the mode field at its default value
    create and the merge field as false, so default-valued parameters are
    sent. -/
theorem sendVisionImportRequest_defaults_counterexample :
    sendVisionImportRequest ⟨"", "", "", "create", false, ""⟩ [⟨[7], "a.png", none⟩]
      = .ok [.file "files" "a.png" [7] "application/octet-stream",
             .field "mode" "create", .field "merge" "false"] := rfl

/-- C3 (amended): in the emitted part list, the folder, app and table
    identifiers and the instructions text each appear exactly when
    non-empty; the mode appears exactly when non-empty, which includes its
    default create; and the merge flag is always sent, as its Boolean
    string. -/
theorem sendVisionImportRequest_field_policy (params : VisionParams)
    (files : List BinaryFile)
    (h : ¬ (params.tableId ≠ "" ∧ params.appId = "")) :
    ∃ parts, sendVisionImportRequest params files = .ok parts ∧
      ((∃ v, FormPart.field "folder_id" v ∈ parts) ↔ params.folderId ≠ "") ∧
      ((∃ v, FormPart.field "app_id" v ∈ parts) ↔ params.appId ≠ "") ∧
      ((∃ v, FormPart.field "table_id" v ∈ parts) ↔ params.tableId ≠ "") ∧
      ((∃ v, FormPart.field "mode" v ∈ parts) ↔ params.mode ≠ "") ∧
      ((∃ v, FormPart.field "instructions" v ∈ parts) ↔ params.instructions ≠ "") ∧
      FormPart.field "merge" (boolToString params.merge) ∈ parts := by
  unfold sendVisionImportRequest
  rw [if_neg h]
  refine ⟨_, rfl, ?_, ?_, ?_, ?_, ?_, ?_⟩ <;>
  · by_cases hf : params.folderId = "" <;>
    by_cases ha : params.appId = "" <;>
    by_cases ht : params.tableId = "" <;>
    by_cases hm : params.mode = "" <;>
    by_cases hi : params.instructions = "" <;>
    simp [hf, ha, ht, hm, hi, List.mem_append, List.mem_map]

/-- C3 witness: with all scalar parameters supplied, every optional field
    and the merge flag appear in the part list. -/
theorem sendVisionImportRequest_field_policy_witness :
    ∃ parts, sendVisionImportRequest ⟨"f1", "a1", "t1", "read", true, "hi"⟩
        [⟨[7], "a.png", none⟩] = .ok parts ∧
      ((∃ v, FormPart.field "folder_id" v ∈ parts) ↔ ("f1" : String) ≠ "") ∧
      ((∃ v, FormPart.field "app_id" v ∈ parts) ↔ ("a1" : String) ≠ "") ∧
      ((∃ v, FormPart.field "table_id" v ∈ parts) ↔ ("t1" : String) ≠ "") ∧
      ((∃ v, FormPart.field "mode" v ∈ parts) ↔ ("read" : String) ≠ "") ∧
      ((∃ v, FormPart.field "instructions" v ∈ parts) ↔ ("hi" : String) ≠ "") ∧
      FormPart.field "merge" (boolToString true) ∈ parts :=
  sendVisionImportRequest_field_policy ⟨"f1", "a1", "t1", "read", true, "hi"⟩
    [⟨[7], "a.png", none⟩] (by decide)

/-- The collection outcome of single-item mode on an item whose only
    binary property is the designated one, when every read returns the
    same byte list: success with the one file at or below the size cap. -/
theorem importVisionDataFiles_single_ok (bytes : Bytes) (name : String)
    (hv : validateFileType name = true) (hn : name ≠ "")
    (hle : bytes.length ≤ 83886080) :
    importVisionDataFiles (fun _ => .ok bytes)
        ⟨some [("data", ⟨some name, none⟩)]⟩ "data"
      = .ok [⟨bytes, name, none⟩] := by
  have hfn : jsOrString (some name) "file" = name := by
    simp [jsOrString, hn]
  have hgt : ¬ (bytes.length > VISION_MAX_FILE_SIZE) := by
    unfold VISION_MAX_FILE_SIZE
    omega
  have htot : ¬ (bytes.length > VISION_MAX_TOTAL_SIZE) := by
    unfold VISION_MAX_TOTAL_SIZE
    omega
  unfold importVisionDataFiles importVisionDataFilesCore
  simp [binaryLookup, hfn, hv, hgt, processExtraProperty, htot,
    importVisionDataFilesAfterRead]

/-- The collection outcome of single-item mode on that same shape of item
    above the size cap: the designated size error, carrying only the byte
    count — the same error value for every filename. -/
theorem importVisionDataFiles_single_tooLarge (bytes : Bytes) (name : String)
    (hv : validateFileType name = true) (hn : name ≠ "")
    (hgt : bytes.length > 83886080) :
    importVisionDataFiles (fun _ => .ok bytes)
        ⟨some [("data", ⟨some name, none⟩)]⟩ "data"
      = .error (.fileTooLargeSingle bytes.length) := by
  have hfn : jsOrString (some name) "file" = name := by
    simp [jsOrString, hn]
  have hgt2 : bytes.length > VISION_MAX_FILE_SIZE := by
    unfold VISION_MAX_FILE_SIZE
    omega
  unfold importVisionDataFiles importVisionDataFilesCore
  simp [binaryLookup, hfn, hv, hgt2, importVisionDataFilesAfterRead]

/-- C7 (amended): the per-file cap is 83886080 bytes (80 MiB); a
    designated file of exactly that size passes the single-item size check
    and is collected, one byte more fails with the file-too-large error of
    that path — which carries the byte count but, for every filename, the
    same error value: the single-item designated-path message names the
    size, not the file. -/
theorem importVisionData_size_threshold (bytes : Bytes) (name : String)
    (hv : validateFileType name = true) (hn : name ≠ "") :
    VISION_MAX_FILE_SIZE = 83886080 ∧
    (bytes.length ≤ 83886080 →
      importVisionDataFiles (fun _ => .ok bytes)
          ⟨some [("data", ⟨some name, none⟩)]⟩ "data"
        = .ok [⟨bytes, name, none⟩]) ∧
    (bytes.length > 83886080 →
      importVisionDataFiles (fun _ => .ok bytes)
          ⟨some [("data", ⟨some name, none⟩)]⟩ "data"
        = .error (.fileTooLargeSingle bytes.length)) :=
  ⟨rfl,
   fun hle => importVisionDataFiles_single_ok bytes name hv hn hle,
   fun hgt => importVisionDataFiles_single_tooLarge bytes name hv hn hgt⟩

/-- C7 witness: a one-byte png is collected; a file of 83886081 bytes is
    rejected with the size-only error. -/
theorem importVisionData_size_threshold_witness :
    validateFileType "a.png" = true ∧
    importVisionDataFiles (fun _ => .ok [0])
        ⟨some [("data", ⟨some "a.png", none⟩)]⟩ "data"
      = .ok [⟨[0], "a.png", none⟩] ∧
    importVisionDataFiles (fun _ => .ok (List.replicate 83886081 0))
        ⟨some [("data", ⟨some "a.png", none⟩)]⟩ "data"
      = .error (.fileTooLargeSingle (List.replicate 83886081 (0 : Nat)).length) :=
  ⟨by decide,
   (importVisionData_size_threshold [0] "a.png" (by decide) (by decide)).2.1
     (by decide),
   (importVisionData_size_threshold (List.replicate 83886081 0) "a.png"
     (by decide) (by decide)).2.2
     (by simp only [List.length_replicate]; decide)⟩

/-- C7 counterexample: at 80 MiB + 1 byte the single-item designated-path
    size error is identical for two different filenames — it cannot be
    naming the file. -/
theorem importVisionData_size_error_no_filename :
    importVisionDataFiles (fun _ => .ok (List.replicate 83886081 0))
        ⟨some [("data", ⟨some "a.png", none⟩)]⟩ "data"
      = .error (.fileTooLargeSingle 83886081) ∧
    importVisionDataFiles (fun _ => .ok (List.replicate 83886081 0))
        ⟨some [("data", ⟨some "b.png", none⟩)]⟩ "data"
      = importVisionDataFiles (fun _ => .ok (List.replicate 83886081 0))
          ⟨some [("data", ⟨some "a.png", none⟩)]⟩ "data" := by
  have ha := importVisionDataFiles_single_tooLarge (List.replicate 83886081 0)
    "a.png" (by decide) (by decide) (by simp only [List.length_replicate]; decide)
  have hb := importVisionDataFiles_single_tooLarge (List.replicate 83886081 0)
    "b.png" (by decide) (by decide) (by simp only [List.length_replicate]; decide)
  refine ⟨?_, ?_⟩
  · rw [ha]
    simp only [List.length_replicate]
  · rw [ha, hb]

/-- foldlM over Except unfolds on a cons. -/
theorem exceptFoldlM_cons {α β ε : Type} (f : β → α → Except ε β) (a0 : β)
    (y : α) (l : List α) :
    List.foldlM f a0 (y :: l) = (f a0 y).bind (fun b => List.foldlM f b l) := rfl

/-- A step the fold leaves unchanged can be removed from the middle. -/
theorem exceptFoldlM_middle_skip {α β ε : Type} (f : β → α → Except ε β)
    (x : α) (hx : ∀ acc, f acc x = .ok acc) :
    ∀ (l1 l2 : List α) (a0 : β),
      List.foldlM f a0 (l1 ++ x :: l2) = List.foldlM f a0 (l1 ++ l2) := by
  intro l1
  induction l1 with
  | nil =>
    intro l2 a0
    show List.foldlM f a0 (x :: l2) = List.foldlM f a0 l2
    rw [exceptFoldlM_cons, hx a0]
    rfl
  | cons y ys ih =>
    intro l2 a0
    show List.foldlM f a0 (y :: (ys ++ x :: l2)) = List.foldlM f a0 (y :: (ys ++ l2))
    rw [exceptFoldlM_cons, exceptFoldlM_cons]
    cases hf : f a0 y with
    | error e => rfl
    | ok a1 =>
      show List.foldlM f a1 (ys ++ x :: l2) = List.foldlM f a1 (ys ++ l2)
      exact ih l2 a1

/-- A step that always fails makes the fold fail whenever its input
    occurs in the list. -/
theorem exceptFoldlM_mem_error {α β ε : Type} (f : β → α → Except ε β)
    (x : α) (hx : ∀ acc, ∃ e, f acc x = .error e) :
    ∀ (l : List α), x ∈ l → ∀ (a0 : β), ∃ e, List.foldlM f a0 l = .error e := by
  intro l
  induction l with
  | nil =>
    intro h
    simp at h
  | cons y ys ih =>
    intro hmem a0
    cases hf : f a0 y with
    | error e =>
      refine ⟨e, ?_⟩
      rw [exceptFoldlM_cons, hf]
      rfl
    | ok a1 =>
      rcases List.mem_cons.mp hmem with hxy | hxs
      · obtain ⟨e, he⟩ := hx a0
        rw [← hxy] at hf
        rw [hf] at he
        cases he
      · obtain ⟨e, he⟩ := ih hxs a1
        refine ⟨e, ?_⟩
        rw [exceptFoldlM_cons, hf]
        exact he

/-- Dropping an entry whose key is not the searched one does not change a
    keyed find. -/
theorem find?_key_middle_skip (bpn k : String) (v : IBinaryData)
    (pre post : List (String × IBinaryData)) (hk : k ≠ bpn) :
    (pre ++ (k, v) :: post).find? (fun p => p.1 = bpn)
      = (pre ++ post).find? (fun p => p.1 = bpn) := by
  induction pre with
  | nil => exact List.find?_cons_of_neg _ (by simp [hk])
  | cons a pre ih =>
    show List.find? _ (a :: (pre ++ (k, v) :: post))
      = List.find? _ (a :: (pre ++ post))
    by_cases ha : a.1 = bpn
    · rw [List.find?_cons_of_pos _ (by simp [ha]),
        List.find?_cons_of_pos _ (by simp [ha])]
    · rw [List.find?_cons_of_neg _ (by simp [ha]),
        List.find?_cons_of_neg _ (by simp [ha])]
      exact ih

/-- Dropping a non-designated binary entry does not change the designated
    lookup. -/
theorem binaryLookup_middle_skip (bpn k : String) (v : IBinaryData)
    (pre post : List (String × IBinaryData)) (hk : k ≠ bpn) :
    binaryLookup ⟨some (pre ++ (k, v) :: post)⟩ bpn
      = binaryLookup ⟨some (pre ++ post)⟩ bpn := by
  show ((pre ++ (k, v) :: post).find? (fun p => p.1 = bpn)).map (fun p => p.2)
    = ((pre ++ post).find? (fun p => p.1 = bpn)).map (fun p => p.2)
  rw [find?_key_middle_skip bpn k v pre post hk]

/-- The opportunistic loop body skips an extra property whose read fails
    with anything but a NodeOperationError. -/
theorem processExtraProperty_skip_on_read_failure
    (read : String → Except VisionError Bytes) (bpn : String)
    (acc : List BinaryFile × Nat) (k : String) (v : IBinaryData)
    (e : VisionError) (hk : k ≠ bpn) (hr : read k = .error e)
    (he : isNodeOperationError e = false) :
    processExtraProperty read bpn acc (k, v) = .ok acc := by
  simp [processExtraProperty, hk, hr, he]

/-- The opportunistic loop body throws on a readable extra property above
    the size cap or with a disallowed type, whatever the accumulator. -/
theorem processExtraProperty_policy_error
    (read : String → Except VisionError Bytes) (bpn : String)
    (k : String) (v : IBinaryData) (data : Bytes)
    (hk : k ≠ bpn) (hr : read k = .ok data)
    (hbad : data.length > VISION_MAX_FILE_SIZE
      ∨ validateFileType (jsOrString v.fileName k) = false) :
    ∀ acc, ∃ e, processExtraProperty read bpn acc (k, v) = .error e := by
  intro acc
  by_cases hsz : data.length > VISION_MAX_FILE_SIZE
  · exact ⟨.extraFileTooLarge (jsOrString v.fileName k),
      by simp [processExtraProperty, hk, hr, hsz]⟩
  · have hvt : validateFileType (jsOrString v.fileName k) = false := by
      rcases hbad with h | h
      · exact absurd h hsz
      · exact h
    exact ⟨.extraUnsupportedFileType (jsOrString v.fileName k)
        (getFileExtension (jsOrString v.fileName k)),
      by simp [processExtraProperty, hk, hr, hsz, hvt]⟩

/-- The single-item after-read tail is unchanged when an entry the loop
    skips is removed. -/
theorem importVisionDataFilesAfterRead_middle_skip
    (read : String → Except VisionError Bytes) (bpn : String)
    (bd : IBinaryData) (pre post : List (String × IBinaryData))
    (k : String) (v : IBinaryData) (fileData : Bytes)
    (hstep : ∀ acc, processExtraProperty read bpn acc (k, v) = .ok acc) :
    importVisionDataFilesAfterRead read bpn bd (pre ++ (k, v) :: post) fileData
      = importVisionDataFilesAfterRead read bpn bd (pre ++ post) fileData := by
  unfold importVisionDataFilesAfterRead
  by_cases hsz : fileData.length > VISION_MAX_FILE_SIZE
  · rw [if_pos hsz, if_pos hsz]
  · rw [if_neg hsz, if_neg hsz,
      exceptFoldlM_middle_skip (processExtraProperty read bpn) (k, v) hstep pre post]

/-- The single-item core is unchanged when an entry the loop skips is
    removed. -/
theorem importVisionDataFilesCore_middle_skip
    (read : String → Except VisionError Bytes) (bpn : String)
    (bd : IBinaryData) (pre post : List (String × IBinaryData))
    (k : String) (v : IBinaryData)
    (hstep : ∀ acc, processExtraProperty read bpn acc (k, v) = .ok acc) :
    importVisionDataFilesCore read bpn bd (pre ++ (k, v) :: post)
      = importVisionDataFilesCore read bpn bd (pre ++ post) := by
  unfold importVisionDataFilesCore
  by_cases hvt : (!validateFileType (jsOrString bd.fileName "file")) = true
  · rw [if_pos hvt, if_pos hvt]
  · rw [if_neg hvt, if_neg hvt]
    cases hrd : read bpn with
    | error e => rfl
    | ok fileData =>
      show importVisionDataFilesAfterRead read bpn bd (pre ++ (k, v) :: post) fileData
        = importVisionDataFilesAfterRead read bpn bd (pre ++ post) fileData
      exact importVisionDataFilesAfterRead_middle_skip read bpn bd pre post k v fileData hstep

/-- The single-item core aborts when some extra entry is readable but
    violates the size or type policy. -/
theorem importVisionDataFilesCore_abort
    (read : String → Except VisionError Bytes) (bpn : String)
    (bd : IBinaryData) (entries : List (String × IBinaryData))
    (k : String) (v : IBinaryData) (data : Bytes)
    (hmem : (k, v) ∈ entries) (hk : k ≠ bpn) (hr : read k = .ok data)
    (hbad : data.length > VISION_MAX_FILE_SIZE
      ∨ validateFileType (jsOrString v.fileName k) = false) :
    ∃ e, importVisionDataFilesCore read bpn bd entries = .error e := by
  unfold importVisionDataFilesCore
  by_cases hvt : (!validateFileType (jsOrString bd.fileName "file")) = true
  · exact ⟨.unsupportedFileTypeSingle
      (getFileExtension (jsOrString bd.fileName "file")), by rw [if_pos hvt]⟩
  · rw [if_neg hvt]
    cases hrd : read bpn with
    | error e => exact ⟨e, rfl⟩
    | ok fileData =>
      show ∃ e, importVisionDataFilesAfterRead read bpn bd entries fileData = .error e
      unfold importVisionDataFilesAfterRead
      by_cases hsz : fileData.length > VISION_MAX_FILE_SIZE
      · exact ⟨.fileTooLargeSingle fileData.length, by rw [if_pos hsz]⟩
      · rw [if_neg hsz]
        obtain ⟨e, he⟩ := exceptFoldlM_mem_error
          (processExtraProperty read bpn) (k, v)
          (processExtraProperty_policy_error read bpn k v data hk hr hbad)
          entries hmem _
        exact ⟨e, by rw [he]⟩

/-- C4: in single-item mode, an opportunistic binary property whose read
    fails with anything but a NodeOperationError is skipped — the loop
    body leaves the accumulator unchanged, and the whole operation behaves
    as if the property were absent, so the remaining collected files are
    still sent — whereas a readable opportunistic property that violates
    the policy (size above the per-file cap, or a disallowed file type)
    aborts the whole operation with an error. -/
theorem importVisionData_opportunistic_failures :
    (∀ (read : String → Except VisionError Bytes) (bpn : String)
       (acc : List BinaryFile × Nat) (k : String) (v : IBinaryData)
       (e : VisionError), k ≠ bpn → read k = .error e →
       isNodeOperationError e = false →
       processExtraProperty read bpn acc (k, v) = .ok acc) ∧
    (∀ (read : String → Except VisionError Bytes) (params : VisionParams)
       (bpn : String) (pre post : List (String × IBinaryData))
       (k : String) (v : IBinaryData) (e : VisionError),
       k ≠ bpn → read k = .error e → isNodeOperationError e = false →
       importVisionData read ⟨some (pre ++ (k, v) :: post)⟩ bpn params
         = importVisionData read ⟨some (pre ++ post)⟩ bpn params) ∧
    (∀ (read : String → Except VisionError Bytes) (params : VisionParams)
       (bpn : String) (entries : List (String × IBinaryData))
       (k : String) (v : IBinaryData) (data : Bytes),
       (k, v) ∈ entries → k ≠ bpn → read k = .ok data →
       (data.length > VISION_MAX_FILE_SIZE
         ∨ validateFileType (jsOrString v.fileName k) = false) →
       ∃ e, importVisionData read ⟨some entries⟩ bpn params = .error e) := by
  refine ⟨?_, ?_, ?_⟩
  · intro read bpn acc k v e hk hr he
    exact processExtraProperty_skip_on_read_failure read bpn acc k v e hk hr he
  · intro read params bpn pre post k v e hk hr he
    have hstep : ∀ acc, processExtraProperty read bpn acc (k, v) = .ok acc :=
      fun acc =>
        processExtraProperty_skip_on_read_failure read bpn acc k v e hk hr he
    unfold importVisionData importVisionDataFiles
    rw [binaryLookup_middle_skip bpn k v pre post hk]
    cases hb : binaryLookup ⟨some (pre ++ post)⟩ bpn with
    | none => rfl
    | some bd =>
      show (importVisionDataFilesCore read bpn bd (pre ++ (k, v) :: post)).bind _
        = (importVisionDataFilesCore read bpn bd (pre ++ post)).bind _
      rw [importVisionDataFilesCore_middle_skip read bpn bd pre post k v hstep]
  · intro read params bpn entries k v data hmem hk hr hbad
    unfold importVisionData importVisionDataFiles
    cases hb : binaryLookup ⟨some entries⟩ bpn with
    | none => exact ⟨.missingBinaryData bpn, rfl⟩
    | some bd =>
      obtain ⟨e, he⟩ :=
        importVisionDataFilesCore_abort read bpn bd entries k v data hmem hk hr hbad
      refine ⟨e, ?_⟩
      show (importVisionDataFilesCore read bpn bd entries).bind _ = .error e
      rw [he]
      rfl

/-- C4 witness: with a read function failing on the extra property with a
    plain error, the loop body skips it and the whole operation equals the
    one without that property; a readable extra property of a disallowed
    type aborts the operation. -/
theorem importVisionData_opportunistic_failures_witness :
    processExtraProperty
        (fun s => if s = "data" then .ok [1] else .error .binaryReadFailure)
        "data" ([], 0) ("extra", ⟨none, none⟩) = .ok ([], 0) ∧
    importVisionData
        (fun s => if s = "data" then .ok [1] else .error .binaryReadFailure)
        ⟨some [("data", ⟨some "a.png", none⟩), ("extra", ⟨none, none⟩)]⟩
        "data" ⟨"", "", "", "create", false, ""⟩
      = importVisionData
        (fun s => if s = "data" then .ok [1] else .error .binaryReadFailure)
        ⟨some [("data", ⟨some "a.png", none⟩)]⟩
        "data" ⟨"", "", "", "create", false, ""⟩ ∧
    (∃ e, importVisionData (fun _ => .ok [1])
        ⟨some [("data", ⟨some "a.png", none⟩), ("extra", ⟨some "x.txt", none⟩)]⟩
        "data" ⟨"", "", "", "create", false, ""⟩ = .error e) :=
  ⟨importVisionData_opportunistic_failures.1 _ "data" ([], 0) "extra" ⟨none, none⟩
     .binaryReadFailure (by decide) rfl rfl,
   importVisionData_opportunistic_failures.2.1 _ ⟨"", "", "", "create", false, ""⟩
     "data" [("data", ⟨some "a.png", none⟩)] [] "extra" ⟨none, none⟩
     .binaryReadFailure (by decide) rfl rfl,
   importVisionData_opportunistic_failures.2.2 _ ⟨"", "", "", "create", false, ""⟩
     "data" [("data", ⟨some "a.png", none⟩), ("extra", ⟨some "x.txt", none⟩)]
     "extra" ⟨some "x.txt", none⟩ [1] (by decide) (by decide) rfl
     (Or.inr (by decide))⟩

/-- The opportunistic loop body relative to an empty accumulator: a
    non-empty accumulator is carried through additively. -/
theorem processExtraProperty_acc (read : String → Except VisionError Bytes)
    (bpn : String) (files : List BinaryFile) (n : Nat)
    (entry : String × IBinaryData) :
    processExtraProperty read bpn (files, n) entry
      = (processExtraProperty read bpn ([], 0) entry).map
          (fun r => (files ++ r.1, n + r.2)) := by
  obtain ⟨k, v⟩ := entry
  by_cases hk : k = bpn
  · simp [processExtraProperty, hk, Except.map]
  · cases hr : read k with
    | error e =>
      by_cases hno : isNodeOperationError e = true
      · simp [processExtraProperty, hk, hr, hno, Except.map]
      · simp [processExtraProperty, hk, hr, hno, Except.map]
    | ok data =>
      by_cases hsz : data.length > VISION_MAX_FILE_SIZE
      · simp [processExtraProperty, hk, hr, hsz, Except.map]
      · by_cases hvt : validateFileType (jsOrString v.fileName k) = true
        · simp [processExtraProperty, hk, hr, hsz, hvt, Nat.add_assoc, Except.map]
        · simp [processExtraProperty, hk, hr, hsz, hvt, Except.map]

/-- The whole opportunistic loop relative to an empty accumulator. -/
theorem foldExtra_acc (read : String → Except VisionError Bytes)
    (bpn : String) (entries : List (String × IBinaryData)) :
    ∀ (files : List BinaryFile) (n : Nat),
      List.foldlM (processExtraProperty read bpn) (files, n) entries
        = (List.foldlM (processExtraProperty read bpn) ([], 0) entries).map
            (fun r => (files ++ r.1, n + r.2)) := by
  induction entries with
  | nil =>
    intro files n
    simp [pure, Except.pure, Except.map]
  | cons e es ih =>
    intro files n
    rw [exceptFoldlM_cons, exceptFoldlM_cons, processExtraProperty_acc]
    cases h0 : processExtraProperty read bpn ([], 0) e with
    | error er => rfl
    | ok r =>
      obtain ⟨g, m⟩ := r
      show List.foldlM (processExtraProperty read bpn) (files ++ g, n + m) es
        = (List.foldlM (processExtraProperty read bpn) (g, m) es).map
            (fun r => (files ++ r.1, n + r.2))
      rw [ih (files ++ g) (n + m), ih g m]
      cases hs : List.foldlM (processExtraProperty read bpn) ([], 0) es with
      | error er => rfl
      | ok r2 => simp [List.append_assoc, Nat.add_assoc, Except.map]

/-- The per-item after-read tail relative to an empty accumulator. -/
theorem collectItemStepAfterRead_acc (read : String → Except VisionError Bytes)
    (bpn : String) (bd : IBinaryData) (entries : List (String × IBinaryData))
    (files : List BinaryFile) (n : Nat) (fileData : Bytes) :
    collectItemStepAfterRead read bpn bd entries (files, n) fileData
      = (collectItemStepAfterRead read bpn bd entries ([], 0) fileData).map
          (fun r => (files ++ r.1, n + r.2)) := by
  unfold collectItemStepAfterRead
  by_cases hsz : fileData.length > VISION_MAX_FILE_SIZE
  · simp [hsz, Except.map]
  · rw [if_neg hsz, if_neg hsz]
    conv_lhs => rw [foldExtra_acc]
    conv_rhs => rw [foldExtra_acc]
    cases hs : List.foldlM (processExtraProperty read bpn) ([], 0) entries with
    | error er => rfl
    | ok r2 => simp [List.append_assoc, Nat.add_assoc, Except.map]

/-- The per-item loop body relative to an empty accumulator. -/
theorem collectItemStep_acc (read : Nat → String → Except VisionError Bytes)
    (bpn : String) (ip : Nat × InputItem)
    (files : List BinaryFile) (n : Nat) :
    collectItemStep read bpn (files, n) ip
      = (collectItemStep read bpn ([], 0) ip).map
          (fun r => (files ++ r.1, n + r.2)) := by
  unfold collectItemStep
  cases hb : binaryLookup ip.2 bpn with
  | none => simp [Except.map]
  | some bd =>
    dsimp only
    by_cases hvt : (!validateFileType (jsOrString bd.fileName "file")) = true
    · rw [if_pos hvt, if_pos hvt]
      rfl
    · rw [if_neg hvt, if_neg hvt]
      cases hrd : read ip.1 bpn with
      | error e => rfl
      | ok fileData =>
        show collectItemStepAfterRead (read ip.1) bpn bd (ip.2.binary.getD [])
            (files, n) fileData
          = (collectItemStepAfterRead (read ip.1) bpn bd (ip.2.binary.getD [])
              ([], 0) fileData).map (fun r => (files ++ r.1, n + r.2))
        exact collectItemStepAfterRead_acc (read ip.1) bpn bd _ files n fileData

/-- The files collected by the per-item loop body from an empty
    accumulator are exactly the item's spec-side attachments. -/
theorem collectItemStep_fst (read : Nat → String → Except VisionError Bytes)
    (bpn : String) (ip : Nat × InputItem) :
    (collectItemStep read bpn ([], 0) ip).map Prod.fst
      = specItemAttachments (read ip.1) bpn ip.2 := by
  unfold collectItemStep specItemAttachments
  cases hb : binaryLookup ip.2 bpn with
  | none => rfl
  | some bd =>
    dsimp only
    by_cases hvt : (!validateFileType (jsOrString bd.fileName "file")) = true
    · rw [if_pos hvt, if_pos hvt]
      rfl
    · rw [if_neg hvt, if_neg hvt]
      cases hrd : read ip.1 bpn with
      | error e => rfl
      | ok fileData => rfl

/-- The per-item fold, projected to its file list, is the flattening of
    the per-item spec-side attachments, in item order. -/
theorem collectFold_spec (read : Nat → String → Except VisionError Bytes)
    (bpn : String) :
    ∀ (ps : List (Nat × InputItem)) (files : List BinaryFile) (n : Nat),
      (List.foldlM (collectItemStep read bpn) (files, n) ps).map Prod.fst
        = (ps.mapM (fun p => specItemAttachments (read p.1) bpn p.2)).map
            (fun ls => files ++ ls.flatten) := by
  intro ps
  induction ps with
  | nil =>
    intro files n
    show (Except.ok files : Except VisionError (List BinaryFile))
      = Except.ok (files ++ ([] : List (List BinaryFile)).flatten)
    simp
  | cons p ps ih =>
    intro files n
    rw [exceptFoldlM_cons, collectItemStep_acc, List.mapM_cons,
      ← collectItemStep_fst read bpn p]
    cases h0 : collectItemStep read bpn ([], 0) p with
    | error e => rfl
    | ok r =>
      obtain ⟨g, m⟩ := r
      show (List.foldlM (collectItemStep read bpn) (files ++ g, n + m) ps).map Prod.fst
        = ((ps.mapM (fun p => specItemAttachments (read p.1) bpn p.2)).bind
            (fun bs => pure (g :: bs))).map (fun ls => files ++ ls.flatten)
      rw [ih (files ++ g) (n + m)]
      cases hs : ps.mapM (fun p => specItemAttachments (read p.1) bpn p.2) with
      | error e => rfl
      | ok ls =>
        simp [List.append_assoc, Except.map, Except.bind, pure, Except.pure]

/-- A successful collect-all-items collection is the flattening of the
    per-item spec-side attachments. -/
theorem importVisionDataFromAllItemsFiles_flatten
    (read : Nat → String → Except VisionError Bytes)
    (items : List InputItem) (bpn : String) (files : List BinaryFile)
    (h : importVisionDataFromAllItemsFiles read items bpn = .ok files) :
    ∃ lists, items.enum.mapM
        (fun p => specItemAttachments (read p.1) bpn p.2) = .ok lists
      ∧ files = lists.flatten := by
  unfold importVisionDataFromAllItemsFiles at h
  by_cases hlen : items.length = 0
  · rw [if_pos hlen] at h
    cases h
  · rw [if_neg hlen] at h
    cases hf : List.foldlM (collectItemStep read bpn) ([], 0) items.enum with
    | error e =>
      rw [hf] at h
      cases h
    | ok result =>
      rw [hf] at h
      have hspec := collectFold_spec read bpn items.enum [] 0
      rw [hf] at hspec
      cases hm : items.enum.mapM
          (fun p => specItemAttachments (read p.1) bpn p.2) with
      | error e =>
        rw [hm] at hspec
        cases hspec
      | ok lists =>
        rw [hm] at hspec
        refine ⟨lists, rfl, ?_⟩
        have h1 : result.1 = lists.flatten := by
          have h2 : (Except.ok result.1 : Except VisionError (List BinaryFile))
              = Except.ok ([] ++ lists.flatten) := hspec
          simpa using h2
        dsimp only at h
        split_ifs at h with c1 c2 c3 <;> cases h
        exact h1

/-- C5: in collect-all-items mode, an item lacking the designated binary
    property is skipped without an error (the per-item loop body leaves
    the accumulator unchanged); a successful collection is exactly the
    flattening, in item order then discovery order within an item, of the
    per-item spec-side attachments; and on 3 items where only the first
    and third carry the designated property the result is exactly their 2
    files, in item order. -/
theorem importVisionDataFromAllItems_collection :
    (∀ (read : Nat → String → Except VisionError Bytes) (bpn : String)
       (acc : List BinaryFile × Nat) (ip : Nat × InputItem),
       binaryLookup ip.2 bpn = none →
       collectItemStep read bpn acc ip = .ok acc) ∧
    (∀ (read : Nat → String → Except VisionError Bytes)
       (items : List InputItem) (bpn : String) (files : List BinaryFile),
       importVisionDataFromAllItemsFiles read items bpn = .ok files →
       ∃ lists, items.enum.mapM
           (fun p => specItemAttachments (read p.1) bpn p.2) = .ok lists
         ∧ files = lists.flatten) ∧
    importVisionDataFromAllItemsFiles (fun i _ => .ok [i])
        [⟨some [("data", ⟨some "a.png", none⟩)]⟩, ⟨none⟩,
         ⟨some [("data", ⟨some "c.pdf", none⟩)]⟩] "data"
      = .ok [⟨[0], "a.png", none⟩, ⟨[2], "c.pdf", none⟩] := by
  refine ⟨?_, ?_, rfl⟩
  · intro read bpn acc ip hb
    unfold collectItemStep
    rw [hb]
  · intro read items bpn files h
    exact importVisionDataFromAllItemsFiles_flatten read items bpn files h

/-- C5 witness: an item without the designated property is skipped, and
    the 3-item run above flattens to its spec-side per-item attachments. -/
theorem importVisionDataFromAllItems_collection_witness :
    collectItemStep (fun i _ => .ok [i]) "data" ([], 0) (1, ⟨none⟩)
      = .ok ([], 0) ∧
    (∃ lists,
      ([⟨some [("data", ⟨some "a.png", none⟩)]⟩, ⟨none⟩,
        ⟨some [("data", ⟨some "c.pdf", none⟩)]⟩] : List InputItem).enum.mapM
          (fun p => specItemAttachments ((fun i _ => .ok [i] :
            Nat → String → Except VisionError Bytes) p.1) "data" p.2)
        = .ok lists
      ∧ [⟨[0], "a.png", none⟩, ⟨[2], "c.pdf", none⟩] = lists.flatten) :=
  ⟨importVisionDataFromAllItems_collection.1 (fun i _ => .ok [i]) "data"
     ([], 0) (1, ⟨none⟩) rfl,
   importVisionDataFromAllItems_collection.2.1 (fun i _ => .ok [i])
     [⟨some [("data", ⟨some "a.png", none⟩)]⟩, ⟨none⟩,
      ⟨some [("data", ⟨some "c.pdf", none⟩)]⟩] "data"
     [⟨[0], "a.png", none⟩, ⟨[2], "c.pdf", none⟩] rfl⟩

/-- C6 counterexample: with an empty input sequence zero files survive
    aggregation, yet the operation fails with the no-input-items error,
    not the no-files-provided error naming the property. -/
theorem importVisionDataFromAllItems_empty_counterexample :
    importVisionDataFromAllItems (fun _ _ => .error .binaryReadFailure) []
        "data" ⟨"", "", "", "create", false, ""⟩ = .error .noInputItems ∧
    (Except.error VisionError.noInputItems : Except VisionError (List FormPart))
      ≠ .error (.noFilesProvided "data") := by
  refine ⟨rfl, ?_⟩
  intro h
  injection h with h2
  cases h2

/-- C6 (amended): on a non-empty input sequence in which no item carries
    the designated binary property, the whole operation fails with the
    no-files-provided error naming that property; the failure happens in
    the collection phase, so sendVisionImportRequest never assembles a
    body. An empty input sequence instead fails earlier with the distinct
    no-input-items error. -/
theorem importVisionDataFromAllItems_noFiles
    (read : Nat → String → Except VisionError Bytes) (params : VisionParams)
    (items : List InputItem) (bpn : String)
    (hne : items ≠ [])
    (habs : ∀ item ∈ items, binaryLookup item bpn = none) :
    importVisionDataFromAllItems read items bpn params
      = .error (.noFilesProvided bpn) := by
  have hfold : ∀ (ps : List (Nat × InputItem)),
      (∀ p ∈ ps, binaryLookup p.2 bpn = none) →
      ∀ acc, List.foldlM (collectItemStep read bpn) acc ps = .ok acc := by
    intro ps
    induction ps with
    | nil =>
      intro _ acc
      rfl
    | cons p ps ih =>
      intro hp acc
      have hstep : collectItemStep read bpn acc p = .ok acc := by
        unfold collectItemStep
        rw [hp p (List.mem_cons_self p ps)]
      rw [exceptFoldlM_cons, hstep]
      show List.foldlM (collectItemStep read bpn) acc ps = .ok acc
      exact ih (fun q hq => hp q (List.mem_cons_of_mem p hq)) acc
  have hlen : ¬ items.length = 0 := fun h => hne (List.length_eq_zero.mp h)
  have henum : ∀ p ∈ items.enum, binaryLookup p.2 bpn = none := by
    intro p hp
    have hmem : p.2 ∈ items.enum.map Prod.snd := List.mem_map_of_mem _ hp
    rw [List.enum_map_snd] at hmem
    exact habs p.2 hmem
  unfold importVisionDataFromAllItems importVisionDataFromAllItemsFiles
  rw [if_neg hlen, hfold items.enum henum ([], 0)]
  rfl

/-- C6 witness: one item with no binary data at all. -/
theorem importVisionDataFromAllItems_noFiles_witness :
    ([(⟨none⟩ : InputItem)] ≠ []) ∧
    importVisionDataFromAllItems (fun _ _ => .error .binaryReadFailure)
        [⟨none⟩] "data" ⟨"", "", "", "create", false, ""⟩
      = .error (.noFilesProvided "data") :=
  ⟨by simp,
   importVisionDataFromAllItems_noFiles (fun _ _ => .error .binaryReadFailure)
     ⟨"", "", "", "create", false, ""⟩ [⟨none⟩] "data" (by simp)
     (by intro item h
         rw [List.mem_singleton] at h
         rw [h]
         rfl)⟩
